import Mathlib

/-!
Verification development for the tvcd-be repository (NestJS / Google-Sheets
change-detection backend).

The TypeScript sources are shallowly embedded:

* Dynamic JS values (`any`) become the inductive `JSVal`; JS objects become
  insertion-ordered association lists `List (String × JSVal)`.
* JS numbers are modelled as exact rationals `ℚ` (the repository only ever
  parses decimal spreadsheet cells); `Number.prototype.toString` is modelled
  by the deterministic rendering `ratToString`.
* `Buffer.from(s).toString('base64')` is modelled byte-faithfully:
  `utf8Bytes` is the UTF-8 encoder and `b64Encode` the padded base64 encoder.
* JS `Map` becomes an insertion-ordered association list with
  replace-in-place `mapSet` / first-match `mapGet` semantics.
* Async/await and logging are erased: every embedded function is the pure
  data transformation performed by the corresponding source function.
-/

set_option maxHeartbeats 1600000
set_option maxRecDepth 4000

/-- A dynamically-typed JavaScript value, as used by the repository's
record objects (`any`).  `obj` keeps the key insertion order. -/
inductive JSVal : Type where
  | null : JSVal
  | num (q : ℚ) : JSVal
  | str (s : String) : JSVal
  | bool (b : Bool) : JSVal
  | obj (fields : List (String × JSVal)) : JSVal

/-- Property read `o[f]` on a JS object: the (unique) binding for `f`,
`none` modelling `undefined`. -/
def getField : List (String × JSVal) → String → Option JSVal
  | [], _ => none
  | (k, v) :: rest, f => if k = f then some v else getField rest f

/-- Property write `o[f] = v`: replaces the binding in place, or appends. -/
def setField : List (String × JSVal) → String → JSVal → List (String × JSVal)
  | [], f, v => [(f, v)]
  | (k, w) :: rest, f, v =>
      if k = f then (k, v) :: rest else (k, w) :: setField rest f v

theorem getField_setField_self (l : List (String × JSVal)) (f : String) (v : JSVal) :
    getField (setField l f v) f = some v := by
  induction l with
  | nil => simp [setField, getField]
  | cons kv rest ih =>
      obtain ⟨k, w⟩ := kv
      by_cases h : k = f
      · simp [setField, getField, h]
      · simp [setField, getField, h, ih]

theorem getField_setField_ne (l : List (String × JSVal)) (f g : String) (v : JSVal)
    (h : g ≠ f) : getField (setField l f v) g = getField l g := by
  have hfg : f ≠ g := Ne.symm h
  induction l with
  | nil => simp [setField, getField, hfg]
  | cons kv rest ih =>
      obtain ⟨k, w⟩ := kv
      by_cases hp : k = f
      · subst hp
        simp [setField, getField, hfg]
      · by_cases hg : k = g
        · simp [setField, getField, hp, hg, h]
        · simp [setField, getField, hp, hg, ih]

/-- JS truthiness of a value (`NaN` does not arise in the rational model). -/
def jsTruthy : JSVal → Bool
  | .null => false
  | .num q => decide (q ≠ 0)
  | .str s => s ≠ ""
  | .bool b => b
  | .obj _ => true

/-- JS whitespace recognised by `String.prototype.trim` / `parseFloat`
(the ASCII portion, the only one appearing in the sheets). -/
def jsWsChar (c : Char) : Bool :=
  c = ' ' || c = '\t' || c = '\n' || c = '\r' || c = '\x0b' || c = '\x0c'

/-- `String.prototype.trim`. -/
def jsTrim (s : String) : String :=
  ⟨((s.data.dropWhile jsWsChar).reverse.dropWhile jsWsChar).reverse⟩

/-- Deterministic rendering of a JS number (`Number.prototype.toString`);
integers render exactly as in JS, non-integers by an injective fallback. -/
def ratToString (q : ℚ) : String :=
  if q.den = 1 then q.num.repr else q.num.repr ++ "/" ++ q.den.repr

/-- `String(value)` string conversion. -/
def jsToString : JSVal → String
  | .null => "null"
  | .num q => ratToString q
  | .str s => s
  | .bool b => if b then "true" else "false"
  | .obj _ => "[object Object]"

/-- `needle` is a prefix of `hay` (char-list level, models `startsWith`). -/
def hasPre : List Char → List Char → Bool
  | [], _ => true
  | _ :: _, [] => false
  | a :: as, b :: bs => a == b && hasPre as bs

/-- `hay.includes(needle)` (char-list level). -/
def hasSub (n : List Char) : List Char → Bool
  | [] => hasPre n []
  | c :: t => hasPre n (c :: t) || hasSub n t

/-- `Array.prototype.join(sep)`. -/
def joinSep (sep : String) : List String → String
  | [] => ""
  | [x] => x
  | x :: xs => x ++ sep ++ joinSep sep xs

theorem joinSep_cons2 (sep x : String) (rest : List String) (h : rest ≠ []) :
    joinSep sep (x :: rest) = x ++ sep ++ joinSep sep rest := by
  cases rest with
  | nil => exact absurd rfl h
  | cons y ys => rfl

theorem str_append_right_cancel {a b c : String} (h : a ++ c = b ++ c) : a = b := by
  apply String.ext
  have hd : a.data ++ c.data = b.data ++ c.data := by
    have := congrArg String.data h
    simpa [String.data_append] using this
  exact List.append_cancel_right hd

theorem str_append_left_cancel {a b c : String} (h : c ++ a = c ++ b) : a = b := by
  apply String.ext
  have hd : c.data ++ a.data = c.data ++ b.data := by
    have := congrArg String.data h
    simpa [String.data_append] using this
  exact List.append_cancel_left hd

theorem joinSep_cancel (sep : String) (pre post : List String) (a b : String)
    (h : joinSep sep (pre ++ a :: post) = joinSep sep (pre ++ b :: post)) : a = b := by
  induction pre with
  | nil =>
      cases post with
      | nil => simpa [joinSep] using h
      | cons p ps =>
          simp only [List.nil_append, joinSep] at h
          exact str_append_right_cancel (str_append_right_cancel h)
  | cons p pre ih =>
      have h1 : joinSep sep (p :: (pre ++ a :: post)) =
          joinSep sep (p :: (pre ++ b :: post)) := by simpa using h
      rw [joinSep_cons2 sep p _ (by simp), joinSep_cons2 sep p _ (by simp)] at h1
      exact ih (str_append_left_cancel h1)

/-- If two string-valued maps agree everywhere on `l` except at the single
occurrence of `x`, where they differ, the joined serializations differ. -/
theorem joinSep_map_single_diff {α : Type} (sep : String) (g1 g2 : α → String)
    (l : List α) (x : α) (hx : x ∈ l) (hnd : l.Nodup)
    (hother : ∀ y ∈ l, y ≠ x → g1 y = g2 y) (hdiff : g1 x ≠ g2 x) :
    joinSep sep (l.map g1) ≠ joinSep sep (l.map g2) := by
  obtain ⟨s, t, rfl⟩ := List.append_of_mem hx
  have hnds : x ∉ s ∧ x ∉ t := by
    rw [List.nodup_append] at hnd
    obtain ⟨-, hxt, hdisj⟩ := hnd
    exact ⟨fun hmem => hdisj hmem (List.mem_cons_self x t),
      (List.nodup_cons.mp hxt).1⟩
  intro h
  rw [List.map_append, List.map_append, List.map_cons, List.map_cons] at h
  have hs : s.map g1 = s.map g2 := by
    apply List.map_congr_left
    intro y hy
    exact hother y (by simp [hy]) (fun hyx => hnds.1 (hyx ▸ hy))
  have ht : t.map g1 = t.map g2 := by
    apply List.map_congr_left
    intro y hy
    exact hother y (by simp [hy]) (fun hyx => hnds.2 (hyx ▸ hy))
  rw [hs, ht] at h
  exact hdiff (joinSep_cancel sep (s.map g2) (t.map g2) _ _ h)

/-! ### UTF-8 and base64 (`Buffer.from(s).toString('base64')`) -/

/-- UTF-8 encoding of one character. -/
def utf8Char (c : Char) : List Nat :=
  let n := c.toNat
  if n < 0x80 then [n]
  else if n < 0x800 then [0xC0 + n / 64, 0x80 + n % 64]
  else if n < 0x10000 then
    [0xE0 + n / 4096, 0x80 + (n / 64) % 64, 0x80 + n % 64]
  else
    [0xF0 + n / 262144, 0x80 + (n / 4096) % 64, 0x80 + (n / 64) % 64, 0x80 + n % 64]

/-- UTF-8 encoding of a character list (`Buffer.from`). -/
def utf8Bytes : List Char → List Nat
  | [] => []
  | c :: cs => utf8Char c ++ utf8Bytes cs

/-- Number of continuation bytes announced by a UTF-8 leading byte. -/
def utf8ContLen (b : Nat) : Nat :=
  if b < 0x80 then 0 else if b < 0xE0 then 1 else if b < 0xF0 then 2 else 3

/-- Code point reassembled from a leading byte and its continuation bytes. -/
def utf8CharVal (b : Nat) : List Nat → Char
  | [] => Char.ofNat b
  | [b1] => Char.ofNat ((b - 0xC0) * 64 + (b1 - 0x80))
  | [b1, b2] => Char.ofNat ((b - 0xE0) * 4096 + (b1 - 0x80) * 64 + (b2 - 0x80))
  | b1 :: b2 :: b3 :: _ =>
      Char.ofNat ((b - 0xF0) * 262144 + (b1 - 0x80) * 4096 + (b2 - 0x80) * 64 + (b3 - 0x80))

/-- UTF-8 decoding, used only to establish injectivity of the encoder. -/
def utf8Decode : List Nat → List Char
  | [] => []
  | b :: bs =>
    let k := utf8ContLen b
    if (bs.take k).length = k then
      utf8CharVal b (bs.take k) :: utf8Decode (bs.drop k)
    else []
termination_by l => l.length
decreasing_by
  simp only [List.length_cons, List.length_drop]
  omega

theorem char_toNat_lt (c : Char) : c.toNat < 1114112 := by
  rcases c.valid with h | ⟨_, h2⟩
  · exact Nat.lt_trans h (by decide)
  · exact h2

theorem utf8Char_lt (c : Char) : ∀ b ∈ utf8Char c, b < 256 := by
  intro b hb
  have hc := char_toNat_lt c
  unfold utf8Char at hb
  by_cases h1 : c.toNat < 0x80
  · simp only [h1, if_true, List.mem_singleton] at hb
    omega
  · by_cases h2 : c.toNat < 0x800
    · simp only [h1, if_false, h2, if_true, List.mem_cons, List.mem_singleton,
        List.not_mem_nil, or_false] at hb
      rcases hb with hb | hb <;> omega
    · by_cases h3 : c.toNat < 0x10000
      · simp only [h1, if_false, h2, h3, if_true, List.mem_cons, List.mem_singleton,
          List.not_mem_nil, or_false] at hb
        rcases hb with hb | hb | hb <;> omega
      · simp only [h1, if_false, h2, h3, List.mem_cons, List.mem_singleton,
          List.not_mem_nil, or_false] at hb
        rcases hb with hb | hb | hb | hb <;> omega

theorem utf8Bytes_lt (l : List Char) : ∀ b ∈ utf8Bytes l, b < 256 := by
  induction l with
  | nil => intro b hb; simp [utf8Bytes] at hb
  | cons c cs ih =>
      intro b hb
      simp only [utf8Bytes, List.mem_append] at hb
      rcases hb with hb | hb
      · exact utf8Char_lt c b hb
      · exact ih b hb

theorem utf8_roundtrip (l : List Char) : utf8Decode (utf8Bytes l) = l := by
  induction l with
  | nil => simp [utf8Bytes, utf8Decode]
  | cons c cs ih =>
      have hc := char_toNat_lt c
      show utf8Decode (utf8Char c ++ utf8Bytes cs) = c :: cs
      unfold utf8Char
      by_cases h1 : c.toNat < 0x80
      · simp only [h1, if_true, List.cons_append, List.nil_append]
        simp only [utf8Decode]
        simp only [utf8ContLen, h1, if_true, List.take_zero, List.length_nil, if_pos rfl,
          List.drop_zero, utf8CharVal]
        rw [ih, Char.ofNat_toNat]
      · by_cases h2 : c.toNat < 0x800
        · simp only [h1, if_false, h2, if_true, List.cons_append, List.nil_append]
          simp only [utf8Decode]
          have hb1 : ¬ (0xC0 + c.toNat / 64 < 0x80) := by omega
          have hb2 : 0xC0 + c.toNat / 64 < 0xE0 := by omega
          simp only [utf8ContLen, hb1, if_false, hb2, if_true, List.take_succ_cons,
            List.take_zero, List.length_cons, List.length_nil, if_pos rfl,
            List.drop_succ_cons, List.drop_zero, utf8CharVal]
          have harith : (0xC0 + c.toNat / 64 - 0xC0) * 64 + (0x80 + c.toNat % 64 - 0x80)
              = c.toNat := by omega
          rw [harith, ih, Char.ofNat_toNat]
        · by_cases h3 : c.toNat < 0x10000
          · simp only [h1, if_false, h2, h3, if_true, List.cons_append, List.nil_append]
            simp only [utf8Decode]
            have hb1 : ¬ (0xE0 + c.toNat / 4096 < 0x80) := by omega
            have hb2 : ¬ (0xE0 + c.toNat / 4096 < 0xE0) := by omega
            have hb3 : 0xE0 + c.toNat / 4096 < 0xF0 := by omega
            simp only [utf8ContLen, hb1, if_false, hb2, hb3, if_true, List.take_succ_cons,
              List.take_zero, List.length_cons, List.length_nil, if_pos rfl,
              List.drop_succ_cons, List.drop_zero, utf8CharVal]
            have harith : (0xE0 + c.toNat / 4096 - 0xE0) * 4096 +
                (0x80 + c.toNat / 64 % 64 - 0x80) * 64 + (0x80 + c.toNat % 64 - 0x80)
                = c.toNat := by omega
            rw [harith, ih, Char.ofNat_toNat]
          · simp only [h1, if_false, h2, h3, List.cons_append, List.nil_append]
            simp only [utf8Decode]
            have hb1 : ¬ (0xF0 + c.toNat / 262144 < 0x80) := by omega
            have hb2 : ¬ (0xF0 + c.toNat / 262144 < 0xE0) := by omega
            have hb3 : ¬ (0xF0 + c.toNat / 262144 < 0xF0) := by omega
            simp only [utf8ContLen, hb1, if_false, hb2, hb3, List.take_succ_cons,
              List.take_zero, List.length_cons, List.length_nil, if_pos rfl,
              List.drop_succ_cons, List.drop_zero, utf8CharVal]
            have harith : (0xF0 + c.toNat / 262144 - 0xF0) * 262144 +
                (0x80 + c.toNat / 4096 % 64 - 0x80) * 4096 +
                (0x80 + c.toNat / 64 % 64 - 0x80) * 64 + (0x80 + c.toNat % 64 - 0x80)
                = c.toNat := by omega
            rw [harith, ih, Char.ofNat_toNat]
            simp

/-- The base64 alphabet. -/
def b64Alphabet : List Char :=
  ("ABCDEFGHIJKLMNOPQRSTUVWXYZabcdefghijklmnopqrstuvwxyz0123456789+/").data

/-- Character for a sextet value. -/
def b64Char (n : Nat) : Char := (b64Alphabet.get? n).getD 'A'

/-- Index of a character in the base64 alphabet. -/
def b64IndexIn : List Char → Char → Nat
  | [], _ => 0
  | a :: as, c => if a = c then 0 else b64IndexIn as c + 1

def b64Val (c : Char) : Nat := b64IndexIn b64Alphabet c

theorem b64Val_b64Char : ∀ x : Fin 64, b64Val (b64Char x.val) = x.val := by decide

theorem b64Char_ne_pad : ∀ x : Fin 64, b64Char x.val ≠ '=' := by decide

/-- Padded base64 encoding of a byte list (`toString('base64')`). -/
def b64Encode : List Nat → List Char
  | [] => []
  | [a] => [b64Char (a / 4), b64Char (a % 4 * 16), '=', '=']
  | [a, b] => [b64Char (a / 4), b64Char (a % 4 * 16 + b / 16), b64Char (b % 16 * 4), '=']
  | a :: b :: c :: rest =>
      b64Char (a / 4) :: b64Char (a % 4 * 16 + b / 16) ::
        b64Char (b % 16 * 4 + c / 64) :: b64Char (c % 64) :: b64Encode rest

/-- Base64 decoding, used only to establish injectivity of the encoder. -/
def b64Decode : List Char → List Nat
  | c0 :: c1 :: c2 :: c3 :: rest =>
      if c2 = '=' then [b64Val c0 * 4 + b64Val c1 / 16]
      else if c3 = '=' then
        [b64Val c0 * 4 + b64Val c1 / 16, b64Val c1 % 16 * 16 + b64Val c2 / 4]
      else
        (b64Val c0 * 4 + b64Val c1 / 16) :: (b64Val c1 % 16 * 16 + b64Val c2 / 4) ::
          (b64Val c2 % 4 * 64 + b64Val c3) :: b64Decode rest
  | _ => []

theorem b64_roundtrip (l : List Nat) (h : ∀ b ∈ l, b < 256) :
    b64Decode (b64Encode l) = l := by
  induction l using b64Encode.induct with
  | case1 => rfl
  | case2 a =>
      have ha : a < 256 := h a (by simp)
      rw [b64Encode, b64Decode]
      rw [if_pos rfl]
      rw [b64Val_b64Char ⟨a / 4, by omega⟩, b64Val_b64Char ⟨a % 4 * 16, by omega⟩]
      simp only [List.cons.injEq, and_true]
      omega
  | case3 a b =>
      have ha : a < 256 := h a (by simp)
      have hb : b < 256 := h b (by simp)
      rw [b64Encode, b64Decode]
      rw [if_neg (b64Char_ne_pad ⟨b % 16 * 4, by omega⟩), if_pos rfl]
      rw [b64Val_b64Char ⟨a / 4, by omega⟩, b64Val_b64Char ⟨a % 4 * 16 + b / 16, by omega⟩,
        b64Val_b64Char ⟨b % 16 * 4, by omega⟩]
      simp only [List.cons.injEq, and_true]
      constructor
      · omega
      · omega
  | case4 a b c rest ih =>
      have ha : a < 256 := h a (by simp)
      have hb : b < 256 := h b (by simp)
      have hc : c < 256 := h c (by simp)
      have hrest : ∀ x ∈ rest, x < 256 := fun x hx => h x (by simp [hx])
      rw [b64Encode, b64Decode]
      rw [if_neg (b64Char_ne_pad ⟨b % 16 * 4 + c / 64, by omega⟩),
        if_neg (b64Char_ne_pad ⟨c % 64, by omega⟩)]
      rw [b64Val_b64Char ⟨a / 4, by omega⟩, b64Val_b64Char ⟨a % 4 * 16 + b / 16, by omega⟩,
        b64Val_b64Char ⟨b % 16 * 4 + c / 64, by omega⟩, b64Val_b64Char ⟨c % 64, by omega⟩,
        ih hrest]
      simp only [List.cons.injEq, and_true]
      refine ⟨by omega, by omega, by omega⟩

/-- `Buffer.from(s).toString('base64')`. -/
def bufferBase64 (s : String) : String := ⟨b64Encode (utf8Bytes s.data)⟩

theorem bufferBase64_inj {a b : String} (h : bufferBase64 a = bufferBase64 b) : a = b := by
  have hdata : b64Encode (utf8Bytes a.data) = b64Encode (utf8Bytes b.data) := by
    have := congrArg String.data h
    simpa [bufferBase64] using this
  have hbytes : utf8Bytes a.data = utf8Bytes b.data := by
    have := congrArg b64Decode hdata
    rwa [b64_roundtrip _ (utf8Bytes_lt a.data), b64_roundtrip _ (utf8Bytes_lt b.data)] at this
  have hchars := congrArg utf8Decode hbytes
  rw [utf8_roundtrip, utf8_roundtrip] at hchars
  exact String.ext hchars

/-! ### GoogleSheetsListenerService (src/unnamed/part_011) -/

namespace Listener

/-- A normalized production record: a JS object keyed by field names. -/
abbrev Record := List (String × JSVal)

/-- `getAllFieldsToMonitor` (part_011 lines 358-391): the fixed ordered list
of monitored scalar fields. -/
def getAllFieldsToMonitor : List String :=
  ["maChuyenLine", "nhaMay", "line", "to", "maHang",
   "slth", "congKh", "congTh", "pphKh", "pphTh", "phanTramHtPph", "gioSx",
   "ldCoMat", "ldLayout", "ldHienCo", "nangSuat",
   "pphTarget", "pphGiao", "phanTramGiao", "targetNgay", "targetGio", "lkth", "phanTramHt",
   "h830", "h930", "h1030", "h1130", "h1330", "h1430", "h1530", "h1630", "h1800", "h1900", "h2000",
   "percentageh830", "percentageh930", "percentageh1030", "percentageh1130",
   "percentageh1330", "percentageh1430", "percentageh1530", "percentageh1630",
   "percentageh1800", "percentageh1900", "percentageh2000",
   "lean", "phanTram100", "t", "l", "image",
   "lkkh", "bqTargetGio", "slcl", "rft", "tongKiem", "mucTieuRft",
   "lktuiloi", "nhipsx", "tansuat", "tyleloi", "loikeo", "loison", "loichi",
   "phanTramLoiKeo", "phanTramLoiSon", "phanTramLoiChi", "QCTarget"]

/-- The eleven daily time slots (`timeSlots` in `serializeHourlyDataForChecksum`). -/
def timeSlots : List String :=
  ["h830", "h930", "h1030", "h1130", "h1330", "h1430", "h1530", "h1630", "h1800", "h1900", "h2000"]

/-- The per-slot fields serialized by `serializeHourlyDataForChecksum`
(part_011 lines 339-347). -/
def hourlySlotFields : List String :=
  ["sanluong", "percentage", "rft", "tongKiem", "datLan1", "tongDat",
   "loi1", "loi2", "loi3", "loi4", "loi5", "loi6", "loi7", "loi8", "loi9", "loi10",
   "loi11", "loi12", "loi13", "loi14",
   "errorpercentage1", "errorpercentage2", "errorpercentage3", "errorpercentage4",
   "errorpercentage5", "errorpercentage6", "errorpercentage7", "errorpercentage8",
   "errorpercentage9", "errorpercentage10", "errorpercentage11", "errorpercentage12",
   "errorpercentage13", "errorpercentage14"]

/-- Canonical string of one monitored field (`calculateChecksum` field map:
null/undefined ↦ "null", numbers/booleans ↦ `toString`, otherwise
`String(value).trim()`). -/
def canonScalar : Option JSVal → String
  | none => "null"
  | some .null => "null"
  | some (.num q) => ratToString q
  | some (.bool b) => if b then "true" else "false"
  | some v => jsTrim (jsToString v)

/-- `String(slotData[f] || 0)` for one per-slot field. -/
def canonSub : Option JSVal → String
  | some v => if jsTruthy v then jsToString v else "0"
  | none => "0"

/-- The slot object stored under `slot` in the `hourlyData` value, when it is
a truthy object (`slotData && typeof slotData === 'object'`). -/
def slotObjOf (hourlyData : JSVal) (slot : String) : Option (List (String × JSVal)) :=
  match hourlyData with
  | .obj l =>
    match getField l slot with
    | some (.obj sl) => some sl
    | _ => none
  | _ => none

/-- The inner `fields.map(f => String(slotData[f] || 0)).join(',')`. -/
def slotChecksum (sl : List (String × JSVal)) : String :=
  joinSep "," (hourlySlotFields.map (fun f => canonSub (getField sl f)))

/-- `serializeHourlyDataForChecksum` (part_011 lines 327-355). -/
def serializeHourlyDataForChecksum (hourlyData : JSVal) : String :=
  match hourlyData with
  | .obj _ =>
      joinSep "|" (timeSlots.filterMap fun slot =>
        (slotObjOf hourlyData slot).map fun sl => slot ++ ":" ++ slotChecksum sl)
  | _ => ""

/-- `record.hourlyData || {}`. -/
def hourlyValOf (r : Record) : JSVal :=
  match getField r "hourlyData" with
  | some v => if jsTruthy v then v else .obj []
  | none => .obj []

/-- `calculateChecksum` (part_011 lines 306-324):
`Buffer.from(fieldValues + '|' + hourlyValues).toString('base64')`. -/
def calculateChecksum (record : Record) : String :=
  let fieldValues :=
    joinSep "|" (getAllFieldsToMonitor.map fun f => canonScalar (getField record f))
  let hourlyValues := serializeHourlyDataForChecksum (hourlyValOf record)
  bufferBase64 (fieldValues ++ "|" ++ hourlyValues)

/-- One snapshot-store entry; `{ ...record, checksum }` is modelled as the
pair of the spread record and the checksum field. -/
structure Entry where
  data : Record
  checksum : String

/-- `previousData : Map<string, any>` with JS `Map` semantics
(insertion order kept, `set` replaces in place). -/
abbrev Store := List (String × Entry)

def mapGet : Store → String → Option Entry
  | [], _ => none
  | (k, e) :: rest, f => if k = f then some e else mapGet rest f

def mapSet : Store → String → Entry → Store
  | [], k, e => [(k, e)]
  | (k0, e0) :: rest, k, e =>
      if k0 = k then (k0, e) :: rest else (k0, e0) :: mapSet rest k e

/-- `record.maChuyenLine` as map key; the line code is always a string cell,
so a missing/non-string value is modelled as the falsy key `""`. -/
def keyOf (r : Record) : String :=
  match getField r "maChuyenLine" with
  | some (.str s) => s
  | _ => ""

inductive ChangeType : Type where
  | new : ChangeType
  | updated : ChangeType
  | deleted : ChangeType
deriving DecidableEq

/-- One element of the `changes` array of `checkForChanges`. -/
structure Change where
  maChuyenLine : String
  ctype : ChangeType
  data : Record

/-- First loop of `checkForChanges` (part_011 lines 87-110): walk the current
records, skip falsy keys, emit `new`/`updated` and replace the store entry. -/
def updatePass : Store → List Record → Store × List Change
  | st, [] => (st, [])
  | st, r :: rs =>
    if keyOf r = "" then updatePass st rs
    else
      let c := calculateChecksum r
      match mapGet st (keyOf r) with
      | none =>
          let p := updatePass (mapSet st (keyOf r) ⟨r, c⟩) rs
          (p.1, ⟨keyOf r, .new, r⟩ :: p.2)
      | some prev =>
          if prev.checksum ≠ c then
            let p := updatePass (mapSet st (keyOf r) ⟨r, c⟩) rs
            (p.1, ⟨keyOf r, .updated, r⟩ :: p.2)
          else updatePass st rs

/-- `new Set(currentData.map(r => r.maChuyenLine).filter(Boolean))`. -/
def currentKeys (rs : List Record) : List String :=
  (rs.map keyOf).filter (fun k => k ≠ "")

/-- Second loop of `checkForChanges` (lines 112-123): emit `deleted` for every
tracked key absent from the current poll and drop its entry. -/
def deletionPass : Store → List String → Store × List Change
  | [], _ => ([], [])
  | (k, e) :: rest, ck =>
    let p := deletionPass rest ck
    if k ∈ ck then ((k, e) :: p.1, p.2) else (p.1, ⟨k, .deleted, e.data⟩ :: p.2)

/-- One change-detection cycle (the body of `checkForChanges` after its gates,
lines 83-123): update pass, then deletion pass. -/
def checkCycle (st : Store) (currentData : List Record) : Store × List Change :=
  let p := updatePass st currentData
  let q := deletionPass p.1 (currentKeys currentData)
  (q.1, p.2 ++ q.2)

/-- `loadInitialData` (lines 40-57): store every record with a truthy key
together with its checksum. -/
def loadInitialData (data : List Record) : Store :=
  data.foldl
    (fun st r =>
      if keyOf r = "" then st else mapSet st (keyOf r) ⟨r, calculateChecksum r⟩)
    []

/-- WebSocket emissions of the listener. -/
inductive Event : Type where
  | maChuyenLineUpdate (room : String) (ctype : ChangeType) : Event
  | productionUpdate (factory : String) (ctype : ChangeType) : Event
  | systemUpdate (channel : String) (changesCount : Nat) : Event

def Event.isSystemUpdate : Event → Bool
  | .systemUpdate _ _ => true
  | _ => false

/-- `emitChange` (lines 149-183): one event to the `maChuyenLine` room, plus
one to the factory room when `data.nhaMay` is truthy. -/
def emitChange (c : Change) : List Event :=
  [.maChuyenLineUpdate c.maChuyenLine c.ctype] ++
    (match getField c.data "nhaMay" with
     | some v => if jsTruthy v then [.productionUpdate (jsToString v) c.ctype] else []
     | none => [])

def emitAll : List Change → List Event
  | [] => []
  | c :: cs => emitChange c ++ emitAll cs

/-- Emission phase of `checkForChanges` (lines 126-142): per-entity events and
then one `data-refresh` system update, all under `if (changes.length > 0)`. -/
def cycleEmit (changes : List Change) : List Event :=
  if changes.length > 0 then
    emitAll changes ++ [.systemUpdate "data-refresh" changes.length]
  else []

/-- The 4-minute rate-limit threshold of `checkForChanges` (line 78). -/
def mainMinCheckIntervalMs : Int := 240000

structure ListenerState where
  isListening : Bool
  lastCheckTime : Int
  previousData : Store

/-- `checkForChanges` (lines 64-147) with its gates; times in ms since epoch,
the active-production-block test is precomputed from the wall clock. -/
def checkForChanges (st : ListenerState) (now : Int) (inActiveBlock : Bool)
    (currentData : List Record) : ListenerState × List Event :=
  if st.isListening = false then (st, [])
  else if inActiveBlock = false then (st, [])
  else if st.lastCheckTime != 0 && decide (now - st.lastCheckTime < mainMinCheckIntervalMs)
    then (st, [])
  else
    let p := checkCycle st.previousData currentData
    ({ isListening := st.isListening, lastCheckTime := now, previousData := p.1 },
      cycleEmit p.2)

/-! Basic store lemmas. -/

theorem mapGet_mapSet_self (st : Store) (k : String) (e : Entry) :
    mapGet (mapSet st k e) k = some e := by
  induction st with
  | nil => simp [mapSet, mapGet]
  | cons p rest ih =>
      obtain ⟨k0, e0⟩ := p
      by_cases h : k0 = k
      · simp [mapSet, mapGet, h]
      · simp [mapSet, mapGet, h, ih]

theorem mapGet_mapSet_ne (st : Store) (k k2 : String) (e : Entry) (h : k2 ≠ k) :
    mapGet (mapSet st k e) k2 = mapGet st k2 := by
  have hk : k ≠ k2 := Ne.symm h
  induction st with
  | nil => simp [mapSet, mapGet, hk]
  | cons p rest ih =>
      obtain ⟨k0, e0⟩ := p
      by_cases h0 : k0 = k
      · subst h0
        simp [mapSet, mapGet, hk]
      · by_cases hg : k0 = k2
        · simp [mapSet, mapGet, h0, hg, h, hk]
        · simp [mapSet, mapGet, h0, hg, ih]

theorem mapSet_mem (st : Store) (k : String) (e : Entry) :
    ∀ p ∈ mapSet st k e, p ∈ st ∨ p = (k, e) := by
  induction st with
  | nil => intro p hp; simp [mapSet] at hp; exact Or.inr hp
  | cons q rest ih =>
      obtain ⟨k0, e0⟩ := q
      intro p hp
      by_cases h : k0 = k
      · simp only [mapSet, h, if_true] at hp
        rcases List.mem_cons.mp hp with h1 | h1
        · exact Or.inr h1
        · exact Or.inl (List.mem_cons_of_mem _ h1)
      · simp only [mapSet, h, if_false] at hp
        rcases List.mem_cons.mp hp with h1 | h1
        · exact Or.inl (by simp [h1])
        · rcases ih p h1 with h2 | h2
          · exact Or.inl (List.mem_cons_of_mem _ h2)
          · exact Or.inr h2

end Listener


namespace Listener

/-- Classification of one current record against a fixed prior snapshot:
the event (if any) that `checkForChanges` emits for it. -/
def classify (st : Store) (r : Record) : Option Change :=
  if keyOf r = "" then none
  else
    match mapGet st (keyOf r) with
    | none => some ⟨keyOf r, .new, r⟩
    | some prev =>
        if prev.checksum ≠ calculateChecksum r then some ⟨keyOf r, .updated, r⟩
        else none

theorem classify_skip (st : Store) (r : Record) (h : keyOf r = "") :
    classify st r = none := by
  simp [classify, h]

theorem classify_new (st : Store) (r : Record) (h : keyOf r ≠ "")
    (hm : mapGet st (keyOf r) = none) :
    classify st r = some ⟨keyOf r, .new, r⟩ := by
  simp [classify, h, hm]

theorem classify_upd (st : Store) (r : Record) (prev : Entry) (h : keyOf r ≠ "")
    (hm : mapGet st (keyOf r) = some prev) (hc : prev.checksum ≠ calculateChecksum r) :
    classify st r = some ⟨keyOf r, .updated, r⟩ := by
  simp [classify, h, hm, hc]

theorem classify_unchanged (st : Store) (r : Record) (prev : Entry) (h : keyOf r ≠ "")
    (hm : mapGet st (keyOf r) = some prev) (hc : prev.checksum = calculateChecksum r) :
    classify st r = none := by
  simp [classify, h, hm, hc]

theorem classify_congr (st1 st2 : Store) (r : Record)
    (h : mapGet st1 (keyOf r) = mapGet st2 (keyOf r)) : classify st1 r = classify st2 r := by
  unfold classify
  rw [h]

theorem classify_key (st : Store) (r : Record) (c : Change)
    (h : classify st r = some c) : c.maChuyenLine = keyOf r := by
  by_cases h0 : keyOf r = ""
  · rw [classify_skip st r h0] at h; cases h
  · cases hm : mapGet st (keyOf r) with
    | none =>
        rw [classify_new st r h0 hm] at h
        injection h with h
        rw [← h]
    | some prev =>
        by_cases hc : prev.checksum = calculateChecksum r
        · rw [classify_unchanged st r prev h0 hm hc] at h; cases h
        · rw [classify_upd st r prev h0 hm hc] at h
          injection h with h
          rw [← h]

theorem updatePass_cons_skip (st : Store) (r : Record) (rs : List Record)
    (h : keyOf r = "") : updatePass st (r :: rs) = updatePass st rs := by
  simp [updatePass, h]

theorem updatePass_cons_new (st : Store) (r : Record) (rs : List Record)
    (h : keyOf r ≠ "") (hm : mapGet st (keyOf r) = none) :
    updatePass st (r :: rs) =
      ((updatePass (mapSet st (keyOf r) ⟨r, calculateChecksum r⟩) rs).1,
        ⟨keyOf r, .new, r⟩ :: (updatePass (mapSet st (keyOf r) ⟨r, calculateChecksum r⟩) rs).2) := by
  simp [updatePass, h, hm]

theorem updatePass_cons_upd (st : Store) (r : Record) (rs : List Record) (prev : Entry)
    (h : keyOf r ≠ "") (hm : mapGet st (keyOf r) = some prev)
    (hc : prev.checksum ≠ calculateChecksum r) :
    updatePass st (r :: rs) =
      ((updatePass (mapSet st (keyOf r) ⟨r, calculateChecksum r⟩) rs).1,
        ⟨keyOf r, .updated, r⟩ ::
          (updatePass (mapSet st (keyOf r) ⟨r, calculateChecksum r⟩) rs).2) := by
  simp [updatePass, h, hm, hc]

theorem updatePass_cons_unchanged (st : Store) (r : Record) (rs : List Record) (prev : Entry)
    (h : keyOf r ≠ "") (hm : mapGet st (keyOf r) = some prev)
    (hc : prev.checksum = calculateChecksum r) :
    updatePass st (r :: rs) = updatePass st rs := by
  simp [updatePass, h, hm, hc]

theorem updatePass_store_not_mem (k : String) :
    ∀ (rs : List Record) (st : Store), k ∉ rs.map keyOf →
      mapGet (updatePass st rs).1 k = mapGet st k := by
  intro rs
  induction rs with
  | nil => intro st _; rfl
  | cons r rs ih =>
      intro st hk
      simp only [List.map_cons, List.mem_cons, not_or] at hk
      obtain ⟨hk1, hk2⟩ := hk
      by_cases h0 : keyOf r = ""
      · rw [updatePass_cons_skip st r rs h0]
        exact ih st hk2
      · cases hm : mapGet st (keyOf r) with
        | none =>
            rw [updatePass_cons_new st r rs h0 hm]
            exact (ih _ hk2).trans (mapGet_mapSet_ne _ _ _ _ hk1)
        | some prev =>
            by_cases hc : prev.checksum = calculateChecksum r
            · rw [updatePass_cons_unchanged st r rs prev h0 hm hc]
              exact ih st hk2
            · rw [updatePass_cons_upd st r rs prev h0 hm hc]
              exact (ih _ hk2).trans (mapGet_mapSet_ne _ _ _ _ hk1)

theorem updatePass_changes :
    ∀ (rs : List Record) (st : Store), (∀ r ∈ rs, keyOf r ≠ "") →
      ((rs.map keyOf).Nodup) → (updatePass st rs).2 = rs.filterMap (classify st) := by
  intro rs
  induction rs with
  | nil => intro st _ _; rfl
  | cons r rs ih =>
      intro st hne hnd
      have h0 : keyOf r ≠ "" := hne r (List.mem_cons_self r rs)
      simp only [List.map_cons, List.nodup_cons] at hnd
      obtain ⟨hk1, hk2⟩ := hnd
      have hneTail : ∀ x ∈ rs, keyOf x ≠ "" := fun x hx => hne x (List.mem_cons_of_mem _ hx)
      have hcongr : ∀ (e : Entry), rs.filterMap (classify (mapSet st (keyOf r) e)) =
          rs.filterMap (classify st) := by
        intro e
        apply List.filterMap_congr
        intro x hx
        apply classify_congr
        apply mapGet_mapSet_ne
        intro hx2
        exact hk1 (hx2 ▸ List.mem_map_of_mem keyOf hx)
      cases hm : mapGet st (keyOf r) with
      | none =>
          rw [updatePass_cons_new st r rs h0 hm, List.filterMap_cons,
            classify_new st r h0 hm, ih _ hneTail hk2, hcongr]
      | some prev =>
          by_cases hc : prev.checksum = calculateChecksum r
          · rw [updatePass_cons_unchanged st r rs prev h0 hm hc, List.filterMap_cons,
              classify_unchanged st r prev h0 hm hc, ih _ hneTail hk2]
          · rw [updatePass_cons_upd st r rs prev h0 hm hc, List.filterMap_cons,
              classify_upd st r prev h0 hm hc, ih _ hneTail hk2, hcongr]

theorem updatePass_store_mem :
    ∀ (rs : List Record) (st : Store) (r : Record), r ∈ rs → (∀ x ∈ rs, keyOf x ≠ "") →
      ((rs.map keyOf).Nodup) →
      mapGet (updatePass st rs).1 (keyOf r) =
        (match classify st r with
         | some _ => some ⟨r, calculateChecksum r⟩
         | none => mapGet st (keyOf r)) := by
  intro rs
  induction rs with
  | nil => intro st r hr; cases hr
  | cons r0 rs ih =>
      intro st r hr hne hnd
      have h00 : keyOf r0 ≠ "" := hne r0 (List.mem_cons_self r0 rs)
      simp only [List.map_cons, List.nodup_cons] at hnd
      obtain ⟨hk1, hk2⟩ := hnd
      have hneTail : ∀ x ∈ rs, keyOf x ≠ "" := fun x hx => hne x (List.mem_cons_of_mem _ hx)
      rcases List.mem_cons.mp hr with rfl | hmem
      · cases hm : mapGet st (keyOf r) with
        | none =>
            rw [updatePass_cons_new st r rs h00 hm, classify_new st r h00 hm]
            rw [updatePass_store_not_mem _ _ _ hk1, mapGet_mapSet_self]
        | some prev =>
            by_cases hc : prev.checksum = calculateChecksum r
            · rw [updatePass_cons_unchanged st r rs prev h00 hm hc,
                classify_unchanged st r prev h00 hm hc]
              rw [updatePass_store_not_mem _ _ _ hk1, hm]
            · rw [updatePass_cons_upd st r rs prev h00 hm hc,
                classify_upd st r prev h00 hm hc]
              rw [updatePass_store_not_mem _ _ _ hk1, mapGet_mapSet_self]
      · have hkey : keyOf r ≠ keyOf r0 := by
          intro hx
          exact hk1 (hx ▸ List.mem_map_of_mem keyOf hmem)
        have hstep : ∀ (e : Entry),
            mapGet (updatePass (mapSet st (keyOf r0) e) rs).1 (keyOf r) =
              (match classify st r with
               | some _ => some ⟨r, calculateChecksum r⟩
               | none => mapGet st (keyOf r)) := by
          intro e
          rw [ih _ r hmem hneTail hk2,
            classify_congr (mapSet st (keyOf r0) e) st r (mapGet_mapSet_ne _ _ _ _ hkey),
            mapGet_mapSet_ne _ _ _ _ hkey]
        cases hm : mapGet st (keyOf r0) with
        | none =>
            rw [updatePass_cons_new st r0 rs h00 hm]
            exact hstep _
        | some prev =>
            by_cases hc : prev.checksum = calculateChecksum r0
            · rw [updatePass_cons_unchanged st r0 rs prev h00 hm hc]
              exact ih _ r hmem hneTail hk2
            · rw [updatePass_cons_upd st r0 rs prev h00 hm hc]
              exact hstep _

theorem deletionPass_get_mem (ck : List String) (k : String) (hk : k ∈ ck) :
    ∀ st : Store, mapGet (deletionPass st ck).1 k = mapGet st k := by
  intro st
  induction st with
  | nil => rfl
  | cons p rest ih =>
      obtain ⟨k0, e0⟩ := p
      by_cases h0 : k0 ∈ ck
      · by_cases hke : k0 = k
        · simp [deletionPass, h0, mapGet, hke, hk]
        · simp [deletionPass, h0, mapGet, hke, ih]
      · have hke : k0 ≠ k := fun h => h0 (h ▸ hk)
        simp [deletionPass, h0, mapGet, hke, ih]

theorem deletionPass_changes (ck : List String) :
    ∀ st : Store, ∀ c ∈ (deletionPass st ck).2,
      c.ctype = ChangeType.deleted ∧ c.maChuyenLine ∉ ck := by
  intro st
  induction st with
  | nil => intro c hc; cases hc
  | cons p rest ih =>
      obtain ⟨k0, e0⟩ := p
      intro c hc
      by_cases h0 : k0 ∈ ck
      · simp only [deletionPass, h0, if_true] at hc
        exact ih c hc
      · simp only [deletionPass, h0, if_false] at hc
        rcases List.mem_cons.mp hc with rfl | hc2
        · exact ⟨rfl, h0⟩
        · exact ih c hc2

theorem deletionPass_sub (ck : List String) :
    ∀ st : Store, ∀ p ∈ (deletionPass st ck).1, p ∈ st := by
  intro st
  induction st with
  | nil => intro p hp; cases hp
  | cons q rest ih =>
      obtain ⟨k0, e0⟩ := q
      intro p hp
      by_cases h0 : k0 ∈ ck
      · simp only [deletionPass, h0, if_true] at hp
        rcases List.mem_cons.mp hp with rfl | hp2
        · exact List.mem_cons_self _ _
        · exact List.mem_cons_of_mem _ (ih p hp2)
      · simp only [deletionPass, h0, if_false] at hp
        exact List.mem_cons_of_mem _ (ih p hp)

theorem filterMap_classify_filter (st : Store) :
    ∀ (rs : List Record) (r : Record), r ∈ rs → (∀ x ∈ rs, keyOf x ≠ "") →
      ((rs.map keyOf).Nodup) →
      (rs.filterMap (classify st)).filter (fun c => c.maChuyenLine == keyOf r) =
        (classify st r).toList := by
  intro rs
  induction rs with
  | nil => intro r hr; cases hr
  | cons r0 rs ih =>
      intro r hr hne hnd
      simp only [List.map_cons, List.nodup_cons] at hnd
      obtain ⟨hk1, hk2⟩ := hnd
      have hneTail : ∀ x ∈ rs, keyOf x ≠ "" := fun x hx => hne x (List.mem_cons_of_mem _ hx)
      rcases List.mem_cons.mp hr with rfl | hmem
      · have htail : (rs.filterMap (classify st)).filter
            (fun c => c.maChuyenLine == keyOf r) = [] := by
          rw [List.filter_eq_nil_iff]
          intro c hc
          obtain ⟨x, hx, hcx⟩ := List.mem_filterMap.mp hc
          have hcx2 := classify_key st x c hcx
          simp only [beq_iff_eq, hcx2]
          intro hxr
          exact hk1 (hxr ▸ List.mem_map_of_mem keyOf hx)
        cases hclass : classify st r with
        | none =>
            simp only [List.filterMap_cons, hclass, htail, Option.toList]
        | some c =>
            have hck := classify_key st r c hclass
            simp only [List.filterMap_cons, hclass, List.filter_cons, hck, beq_self_eq_true,
              if_true, htail, Option.toList]
      · have hkey : keyOf r ≠ keyOf r0 := by
          intro hx
          exact hk1 (hx ▸ List.mem_map_of_mem keyOf hmem)
        cases hclass : classify st r0 with
        | none =>
            simp only [List.filterMap_cons, hclass]
            exact ih r hmem hneTail hk2
        | some c =>
            have hck := classify_key st r0 c hclass
            have hfilter : (c.maChuyenLine == keyOf r) = false := by
              simp only [beq_eq_false_iff_ne, hck]
              exact Ne.symm hkey
            simp only [List.filterMap_cons, hclass, List.filter_cons, hfilter, if_false]
            exact ih r hmem hneTail hk2

end Listener

namespace Listener

theorem checkCycle_changes_eq (S : Store) (R : List Record) :
    (checkCycle S R).2 =
      (updatePass S R).2 ++ (deletionPass (updatePass S R).1 (currentKeys R)).2 := rfl

theorem checkCycle_store_eq (S : Store) (R : List Record) :
    (checkCycle S R).1 = (deletionPass (updatePass S R).1 (currentKeys R)).1 := rfl

/-- The snapshot-store invariant of C10: every entry's stored checksum is the
checksum of its stored record, its key is that record's `maChuyenLine`, and no
entry has an empty (falsy) key. -/
def storeOK (st : Store) : Prop :=
  ∀ p ∈ st, p.2.checksum = calculateChecksum p.2.data ∧ p.1 = keyOf p.2.data ∧ p.1 ≠ ""

theorem storeOK_mapSet (st : Store) (r : Record) (h : storeOK st) (hk : keyOf r ≠ "") :
    storeOK (mapSet st (keyOf r) ⟨r, calculateChecksum r⟩) := by
  intro p hp
  rcases mapSet_mem st _ _ p hp with h1 | h1
  · exact h p h1
  · subst h1
    exact ⟨rfl, rfl, hk⟩

theorem storeOK_loadInitial_go (data : List Record) :
    ∀ st : Store, storeOK st →
      storeOK (data.foldl
        (fun st r =>
          if keyOf r = "" then st else mapSet st (keyOf r) ⟨r, calculateChecksum r⟩) st) := by
  induction data with
  | nil => intro st h; exact h
  | cons r rs ih =>
      intro st h
      rw [List.foldl_cons]
      by_cases h0 : keyOf r = ""
      · rw [if_pos h0]
        exact ih st h
      · rw [if_neg h0]
        exact ih _ (storeOK_mapSet st r h h0)

theorem storeOK_loadInitialData (data : List Record) : storeOK (loadInitialData data) :=
  storeOK_loadInitial_go data [] (fun p hp => absurd hp (List.not_mem_nil p))

theorem storeOK_updatePass :
    ∀ (rs : List Record) (st : Store), storeOK st → storeOK (updatePass st rs).1 := by
  intro rs
  induction rs with
  | nil => intro st h; exact h
  | cons r rs ih =>
      intro st h
      by_cases h0 : keyOf r = ""
      · rw [updatePass_cons_skip st r rs h0]
        exact ih st h
      · cases hm : mapGet st (keyOf r) with
        | none =>
            rw [updatePass_cons_new st r rs h0 hm]
            exact ih _ (storeOK_mapSet st r h h0)
        | some prev =>
            by_cases hc : prev.checksum = calculateChecksum r
            · rw [updatePass_cons_unchanged st r rs prev h0 hm hc]
              exact ih st h
            · rw [updatePass_cons_upd st r rs prev h0 hm hc]
              exact ih _ (storeOK_mapSet st r h h0)

theorem updatePass_changes_keys :
    ∀ (rs : List Record) (st : Store), ∀ c ∈ (updatePass st rs).2, c.maChuyenLine ≠ "" := by
  intro rs
  induction rs with
  | nil => intro st c hc; cases hc
  | cons r rs ih =>
      intro st c hc
      by_cases h0 : keyOf r = ""
      · rw [updatePass_cons_skip st r rs h0] at hc
        exact ih st c hc
      · cases hm : mapGet st (keyOf r) with
        | none =>
            rw [updatePass_cons_new st r rs h0 hm] at hc
            rcases List.mem_cons.mp hc with rfl | hc2
            · exact h0
            · exact ih _ c hc2
        | some prev =>
            by_cases hcc : prev.checksum = calculateChecksum r
            · rw [updatePass_cons_unchanged st r rs prev h0 hm hcc] at hc
              exact ih st c hc
            · rw [updatePass_cons_upd st r rs prev h0 hm hcc] at hc
              rcases List.mem_cons.mp hc with rfl | hc2
              · exact h0
              · exact ih _ c hc2

theorem deletionPass_changes_keys (ck : List String) :
    ∀ st : Store, storeOK st →
      ∀ c ∈ (deletionPass st ck).2, c.maChuyenLine ≠ "" := by
  intro st
  induction st with
  | nil => intro _ c hc; cases hc
  | cons p rest ih =>
      obtain ⟨k0, e0⟩ := p
      intro h c hc
      have hrest : storeOK rest := fun q hq => h q (List.mem_cons_of_mem _ hq)
      by_cases h0 : k0 ∈ ck
      · simp only [deletionPass, h0, if_true] at hc
        exact ih hrest c hc
      · simp only [deletionPass, h0, if_false] at hc
        rcases List.mem_cons.mp hc with rfl | hc2
        · exact (h (k0, e0) (List.mem_cons_self _ _)).2.2
        · exact ih hrest c hc2

end Listener

namespace Listener

theorem emitAll_no_system : ∀ (cs : List Change), ∀ e ∈ emitAll cs, e.isSystemUpdate = false := by
  intro cs
  induction cs with
  | nil => intro e he; cases he
  | cons c cs ih =>
      intro e he
      rcases List.mem_append.mp he with h1 | h1
      · cases hm : getField c.data "nhaMay" with
        | none =>
            simp only [emitChange, hm, List.append_nil] at h1
            rcases List.mem_singleton.mp h1 with rfl
            rfl
        | some v =>
            by_cases ht : jsTruthy v
            · simp only [emitChange, hm, ht, if_true] at h1
              rcases List.mem_append.mp h1 with h2 | h2
              · rcases List.mem_singleton.mp h2 with rfl
                rfl
              · rcases List.mem_singleton.mp h2 with rfl
                rfl
            · simp only [emitChange, hm, ht, if_false, List.append_nil] at h1
              rcases List.mem_singleton.mp h1 with rfl
              rfl
      · exact ih e h1

/-- Claim C1, amended.  For a prior snapshot `S` and a poll result `R` whose
records carry pairwise-distinct non-empty keys, one change-detection cycle
emits exactly one `new` change per record whose key is absent from `S`
(storing the record with its fingerprint), exactly one `updated` change per
record whose key is present with a differing stored fingerprint (replacing
the entry), and no change at all for a key present with an equal fingerprint.
(The amendment restricts the claim to non-empty pairwise-distinct keys:
records with a falsy `maChuyenLine` are skipped by `checkForChanges`.) -/
theorem diffCycle_complete (S : Store) (R : List Record)
    (hne : ∀ r ∈ R, keyOf r ≠ "") (hnd : (R.map keyOf).Nodup) :
    ∀ r ∈ R,
      (mapGet S (keyOf r) = none →
        ((checkCycle S R).2.filter (fun c => c.maChuyenLine == keyOf r)) =
          [⟨keyOf r, ChangeType.new, r⟩] ∧
        mapGet (checkCycle S R).1 (keyOf r) = some ⟨r, calculateChecksum r⟩) ∧
      (∀ prev : Entry, mapGet S (keyOf r) = some prev →
        (prev.checksum ≠ calculateChecksum r →
          ((checkCycle S R).2.filter (fun c => c.maChuyenLine == keyOf r)) =
            [⟨keyOf r, ChangeType.updated, r⟩] ∧
          mapGet (checkCycle S R).1 (keyOf r) = some ⟨r, calculateChecksum r⟩) ∧
        (prev.checksum = calculateChecksum r →
          ((checkCycle S R).2.filter (fun c => c.maChuyenLine == keyOf r)) = [])) := by
  intro r hr
  have hk : keyOf r ≠ "" := hne r hr
  have hmemck : keyOf r ∈ currentKeys R := by
    unfold currentKeys
    refine List.mem_filter.mpr ⟨List.mem_map_of_mem keyOf hr, ?_⟩
    simp [hk]
  have hfilter2 : ((deletionPass (updatePass S R).1 (currentKeys R)).2.filter
      (fun c => c.maChuyenLine == keyOf r)) = [] := by
    rw [List.filter_eq_nil_iff]
    intro c hc
    have hdel := (deletionPass_changes (currentKeys R) (updatePass S R).1 c hc).2
    simp only [beq_iff_eq]
    intro he
    exact hdel (he ▸ hmemck)
  have hfilter1 : ((updatePass S R).2.filter (fun c => c.maChuyenLine == keyOf r)) =
      (classify S r).toList := by
    rw [updatePass_changes R S hne hnd]
    exact filterMap_classify_filter S R r hr hne hnd
  have hfilterAll : ((checkCycle S R).2.filter (fun c => c.maChuyenLine == keyOf r)) =
      (classify S r).toList := by
    rw [checkCycle_changes_eq, List.filter_append, hfilter1, hfilter2, List.append_nil]
  have hstore : mapGet (checkCycle S R).1 (keyOf r) =
      (match classify S r with
       | some _ => some ⟨r, calculateChecksum r⟩
       | none => mapGet S (keyOf r)) := by
    rw [checkCycle_store_eq, deletionPass_get_mem (currentKeys R) (keyOf r) hmemck,
      updatePass_store_mem R S r hr hne hnd]
  constructor
  · intro hm
    rw [classify_new S r hk hm] at hfilterAll hstore
    exact ⟨by simpa [Option.toList] using hfilterAll, by simpa using hstore⟩
  · intro prev hm
    constructor
    · intro hc
      rw [classify_upd S r prev hk hm hc] at hfilterAll hstore
      exact ⟨by simpa [Option.toList] using hfilterAll, by simpa using hstore⟩
    · intro hc
      rw [classify_unchanged S r prev hk hm hc] at hfilterAll
      simpa [Option.toList] using hfilterAll

/-- A current record with a non-empty key, used as concrete witness input. -/
def recA : Record := [("maChuyenLine", JSVal.str "A"), ("nhaMay", JSVal.str "TS1")]

theorem diffCycle_complete_witness :
    (∀ r ∈ [recA], keyOf r ≠ "") ∧ (([recA].map keyOf).Nodup) ∧
      ((checkCycle [] [recA]).2.filter (fun c => c.maChuyenLine == keyOf recA)) =
        [⟨keyOf recA, ChangeType.new, recA⟩] :=
  ⟨by decide, by decide,
    ((diffCycle_complete [] [recA] (by decide) (by decide) recA
        (List.mem_singleton.mpr rfl)).1 rfl).1⟩

/-- A record whose `maChuyenLine` is the empty (falsy) string. -/
def emptyKeyRec : Record := [("maChuyenLine", JSVal.str ""), ("slth", JSVal.num 5)]

/-- A minimal record with key `"B"`, polled twice in one cycle. -/
def recB : Record := [("maChuyenLine", JSVal.str "B")]

/-- Claim C1, counterexample to the claim as stated.  The record
`emptyKeyRec` has a key absent from the empty prior snapshot, yet the cycle
emits no `new` change for it and stores nothing (`checkForChanges` skips
records with a falsy `maChuyenLine`); and on the concrete input
`[recB, recB]` the cycle emits one `new` change where the claim demands one
`new` change per record whose key is absent from the prior snapshot — the
second occurrence is classified against the store entry just written for
the first, not against the prior snapshot. -/
theorem checkCycle_emptyKey_cex :
    keyOf emptyKeyRec = "" ∧
    mapGet ([] : Store) (keyOf emptyKeyRec) = none ∧
    (checkCycle [] [emptyKeyRec]).2 = [] ∧
    (checkCycle [] [emptyKeyRec]).1 = [] ∧
    ((checkCycle [] [recB, recB]).2.map (fun c => c.ctype)) = [ChangeType.new] :=
  ⟨rfl, rfl, rfl, rfl, by decide⟩

/-- Claim C10.  After the initial load, and after every change-detection
cycle run from an invariant-satisfying store, every snapshot entry stores the
checksum of its own record under the record's `maChuyenLine` key; records
with an empty (falsy) key are never inserted and never produce change
events. -/
theorem store_invariant :
    (∀ data : List Record, storeOK (loadInitialData data)) ∧
    (∀ (st : Store) (rs : List Record), storeOK st →
      storeOK (checkCycle st rs).1 ∧ ∀ c ∈ (checkCycle st rs).2, c.maChuyenLine ≠ "") := by
  constructor
  · exact storeOK_loadInitialData
  · intro st rs h
    constructor
    · rw [checkCycle_store_eq]
      intro p hp
      exact storeOK_updatePass rs st h p (deletionPass_sub _ _ p hp)
    · intro c hc
      rw [checkCycle_changes_eq] at hc
      rcases List.mem_append.mp hc with hc1 | hc1
      · exact updatePass_changes_keys rs st c hc1
      · exact deletionPass_changes_keys _ _ (storeOK_updatePass rs st h) c hc1

/-- A concrete well-formed store for the C10 witness. -/
def storeK : Store :=
  [("K", ⟨[("maChuyenLine", JSVal.str "K")], calculateChecksum [("maChuyenLine", JSVal.str "K")]⟩)]

theorem store_invariant_witness :
    storeOK storeK ∧
      (storeOK (checkCycle storeK [recA]).1 ∧
        ∀ c ∈ (checkCycle storeK [recA]).2, c.maChuyenLine ≠ "") :=
  have hOK : storeOK storeK := by
    intro p hp
    rcases List.mem_singleton.mp hp with rfl
    exact ⟨rfl, rfl, by decide⟩
  ⟨hOK, store_invariant.2 storeK [recA] hOK⟩

/-- Claim C4, amended.  In the emission phase of a completed cycle, the
cycle-level `data-refresh` summary (carrying the change count) is published
after all per-entity events — but only when at least one change was
detected; a cycle with zero changes publishes nothing. -/
theorem summary_after_changes :
    (∀ changes : List Change, changes ≠ [] →
      cycleEmit changes =
        emitAll changes ++ [Event.systemUpdate "data-refresh" changes.length] ∧
      ∀ e ∈ emitAll changes, e.isSystemUpdate = false) ∧
    cycleEmit [] = [] := by
  constructor
  · intro cs hcs
    constructor
    · unfold cycleEmit
      rw [if_pos (List.length_pos.mpr hcs)]
    · exact emitAll_no_system cs
  · rfl

/-- A concrete change for the C4 witness. -/
def changeA : Change := ⟨"A", ChangeType.new, recA⟩

theorem summary_after_changes_witness :
    ([changeA] ≠ ([] : List Change)) ∧
      (cycleEmit [changeA] =
        emitAll [changeA] ++ [Event.systemUpdate "data-refresh" [changeA].length] ∧
      ∀ e ∈ emitAll [changeA], e.isSystemUpdate = false) :=
  have hne : [changeA] ≠ ([] : List Change) := List.cons_ne_nil _ _
  ⟨hne, summary_after_changes.1 [changeA] hne⟩

/-- Claim C4, counterexample to the claim as stated: a cycle that detects
zero changes publishes no events at all — in particular no cycle-level
summary event, although the claim requires one even then. -/
theorem summary_zero_changes_cex :
    cycleEmit [] = [] ∧ ((cycleEmit []).any Event.isSystemUpdate) = false :=
  ⟨rfl, rfl⟩

end Listener

namespace Listener

theorem monitored_nodup : getAllFieldsToMonitor.Nodup := by decide

theorem hourlyData_not_monitored : "hourlyData" ∉ getAllFieldsToMonitor := by decide

theorem timeSlots_nodup : timeSlots.Nodup := by decide

theorem slotFields_nodup : hourlySlotFields.Nodup := by decide

theorem calculateChecksum_def (r : Record) : calculateChecksum r =
    bufferBase64
      (joinSep "|" (getAllFieldsToMonitor.map fun f => canonScalar (getField r f)) ++ "|" ++
        serializeHourlyDataForChecksum (hourlyValOf r)) := rfl

/-- Changing one monitored scalar field to a value with a different canonical
serialization changes the checksum. -/
theorem checksum_scalar_change (r : Record) (f : String) (hf : f ∈ getAllFieldsToMonitor)
    (v : JSVal) (hdiff : canonScalar (some v) ≠ canonScalar (getField r f)) :
    calculateChecksum (setField r f v) ≠ calculateChecksum r := by
  intro h
  rw [calculateChecksum_def, calculateChecksum_def] at h
  have hs := bufferBase64_inj h
  have hfh : f ≠ "hourlyData" := fun hx => hourlyData_not_monitored (hx ▸ hf)
  have hH : hourlyValOf (setField r f v) = hourlyValOf r := by
    unfold hourlyValOf
    rw [getField_setField_ne r f "hourlyData" v (Ne.symm hfh)]
  rw [hH] at hs
  have hF := str_append_right_cancel (str_append_right_cancel hs)
  refine joinSep_map_single_diff "|" (fun g => canonScalar (getField (setField r f v) g))
    (fun g => canonScalar (getField r g)) getAllFieldsToMonitor f hf monitored_nodup
    ?_ ?_ hF
  · intro y _ hyf
    exact congrArg canonScalar (getField_setField_ne r f y v hyf)
  · show canonScalar (getField (setField r f v) f) ≠ canonScalar (getField r f)
    rw [getField_setField_self]
    exact hdiff

/-- Changing one field of one per-time-slot sub-record to a value with a
different `String(v || 0)` serialization changes the checksum. -/
theorem checksum_slot_change (r : Record) (hd : List (String × JSVal)) (slot : String)
    (sl : List (String × JSVal)) (g : String) (v : JSVal)
    (hhd : getField r "hourlyData" = some (JSVal.obj hd))
    (hslot : slot ∈ timeSlots)
    (hsl : getField hd slot = some (JSVal.obj sl))
    (hg : g ∈ hourlySlotFields)
    (hdiff : canonSub (some v) ≠ canonSub (getField sl g)) :
    calculateChecksum
        (setField r "hourlyData" (JSVal.obj (setField hd slot (JSVal.obj (setField sl g v))))) ≠
      calculateChecksum r := by
  intro h
  rw [calculateChecksum_def, calculateChecksum_def] at h
  have hs := bufferBase64_inj h
  have hF : (getAllFieldsToMonitor.map fun f =>
      canonScalar (getField
        (setField r "hourlyData" (JSVal.obj (setField hd slot (JSVal.obj (setField sl g v))))) f)) =
      (getAllFieldsToMonitor.map fun f => canonScalar (getField r f)) := by
    apply List.map_congr_left
    intro f hfm
    have hfh : f ≠ "hourlyData" := fun hx => hourlyData_not_monitored (hx ▸ hfm)
    exact congrArg canonScalar (getField_setField_ne r "hourlyData" f _ hfh)
  rw [hF] at hs
  have hH := str_append_left_cancel hs
  have hval2 : hourlyValOf
      (setField r "hourlyData" (JSVal.obj (setField hd slot (JSVal.obj (setField sl g v))))) =
      JSVal.obj (setField hd slot (JSVal.obj (setField sl g v))) := by
    unfold hourlyValOf
    rw [getField_setField_self]
    rfl
  have hval1 : hourlyValOf r = JSVal.obj hd := by
    unfold hourlyValOf
    rw [hhd]
    rfl
  rw [hval1, hval2] at hH
  obtain ⟨pre, post, hts⟩ := List.append_of_mem hslot
  have hnodup := timeSlots_nodup
  rw [hts, List.nodup_append] at hnodup
  obtain ⟨-, hnpost, hdisj⟩ := hnodup
  have hpre : slot ∉ pre := fun hmem => hdisj hmem (List.mem_cons_self slot post)
  have hpost : slot ∉ post := (List.nodup_cons.mp hnpost).1
  have hso2 : slotObjOf (JSVal.obj (setField hd slot (JSVal.obj (setField sl g v)))) slot =
      some (setField sl g v) := by
    simp only [slotObjOf]
    rw [getField_setField_self]
  have hso1 : slotObjOf (JSVal.obj hd) slot = some sl := by
    simp only [slotObjOf]
    rw [hsl]
  have hsoEq : ∀ s, s ≠ slot →
      slotObjOf (JSVal.obj (setField hd slot (JSVal.obj (setField sl g v)))) s =
        slotObjOf (JSVal.obj hd) s := by
    intro s hsn
    simp only [slotObjOf]
    rw [getField_setField_ne hd slot s _ hsn]
  have hexp : ∀ hdv : JSVal, ∀ slv, slotObjOf hdv slot = some slv →
      (timeSlots.filterMap fun s => (slotObjOf hdv s).map fun x => s ++ ":" ++ slotChecksum x) =
        (pre.filterMap fun s => (slotObjOf hdv s).map fun x => s ++ ":" ++ slotChecksum x) ++
          (slot ++ ":" ++ slotChecksum slv) ::
            (post.filterMap fun s => (slotObjOf hdv s).map fun x => s ++ ":" ++ slotChecksum x) := by
    intro hdv slv hslv
    rw [hts, List.filterMap_append, List.filterMap_cons, hslv]
    rfl
  have hser : ∀ hdl : List (String × JSVal),
      serializeHourlyDataForChecksum (JSVal.obj hdl) =
        joinSep "|" (timeSlots.filterMap fun s =>
          (slotObjOf (JSVal.obj hdl) s).map fun x => s ++ ":" ++ slotChecksum x) :=
    fun hdl => rfl
  rw [hser, hser, hexp _ _ hso2, hexp _ _ hso1] at hH
  have hPre : (pre.filterMap fun s =>
      (slotObjOf (JSVal.obj (setField hd slot (JSVal.obj (setField sl g v)))) s).map
        fun x => s ++ ":" ++ slotChecksum x) =
      (pre.filterMap fun s => (slotObjOf (JSVal.obj hd) s).map
        fun x => s ++ ":" ++ slotChecksum x) := by
    apply List.filterMap_congr
    intro s hsmem
    rw [hsoEq s (fun hx => hpre (hx ▸ hsmem))]
  have hPost : (post.filterMap fun s =>
      (slotObjOf (JSVal.obj (setField hd slot (JSVal.obj (setField sl g v)))) s).map
        fun x => s ++ ":" ++ slotChecksum x) =
      (post.filterMap fun s => (slotObjOf (JSVal.obj hd) s).map
        fun x => s ++ ":" ++ slotChecksum x) := by
    apply List.filterMap_congr
    intro s hsmem
    rw [hsoEq s (fun hx => hpost (hx ▸ hsmem))]
  rw [hPre, hPost] at hH
  have hpart := joinSep_cancel "|" _ _ _ _ hH
  have hslotEq := str_append_left_cancel hpart
  refine joinSep_map_single_diff "," (fun x => canonSub (getField (setField sl g v) x))
    (fun x => canonSub (getField sl x)) hourlySlotFields g hg slotFields_nodup
    ?_ ?_ hslotEq
  · intro y _ hyg
    exact congrArg canonSub (getField_setField_ne sl g y v hyg)
  · show canonSub (getField (setField sl g v) g) ≠ canonSub (getField sl g)
    rw [getField_setField_self]
    exact hdiff

end Listener

namespace Listener

/-- Claim C2, amended.  Changing a single monitored scalar field of a record
to a value whose canonical serialization (null/undefined ↦ "null", numbers
and booleans ↦ their decimal string, other values ↦ `String(v).trim()`)
differs, or a single per-time-slot sub-record field to a value whose
`String(v || 0)` serialization differs, changes the fingerprint produced by
`calculateChecksum`.  (The amendment is forced because the serialization
trims strings and collapses all falsy sub-record values to `"0"`, so value
changes inside one serialization class do not change the token.) -/
theorem checksum_sensitive :
    (∀ (r : Record) (f : String), f ∈ getAllFieldsToMonitor →
      ∀ v : JSVal, canonScalar (some v) ≠ canonScalar (getField r f) →
        calculateChecksum (setField r f v) ≠ calculateChecksum r) ∧
    (∀ (r : Record) (hd : List (String × JSVal)) (slot : String)
        (sl : List (String × JSVal)) (g : String) (v : JSVal),
      getField r "hourlyData" = some (JSVal.obj hd) →
      slot ∈ timeSlots →
      getField hd slot = some (JSVal.obj sl) →
      g ∈ hourlySlotFields →
      canonSub (some v) ≠ canonSub (getField sl g) →
      calculateChecksum
          (setField r "hourlyData" (JSVal.obj (setField hd slot (JSVal.obj (setField sl g v))))) ≠
        calculateChecksum r) :=
  ⟨fun r f hf v hdiff => checksum_scalar_change r f hf v hdiff,
   fun r hd slot sl g v hhd hslot hsl hg hdiff =>
     checksum_slot_change r hd slot sl g v hhd hslot hsl hg hdiff⟩

/-- Concrete records for the C2 witness. -/
def recC2 : Record := [("maHang", JSVal.str "X1")]

def slotH : List (String × JSVal) := [("sanluong", JSVal.str "7")]

def hdH : List (String × JSVal) := [("h830", JSVal.obj slotH)]

def recH : Record := [("hourlyData", JSVal.obj hdH)]

theorem checksum_sensitive_witness :
    ("maHang" ∈ getAllFieldsToMonitor ∧
      canonScalar (some (JSVal.str "X2")) ≠ canonScalar (getField recC2 "maHang") ∧
      calculateChecksum (setField recC2 "maHang" (JSVal.str "X2")) ≠
        calculateChecksum recC2) ∧
    (getField recH "hourlyData" = some (JSVal.obj hdH) ∧
      "h830" ∈ timeSlots ∧
      getField hdH "h830" = some (JSVal.obj slotH) ∧
      "sanluong" ∈ hourlySlotFields ∧
      canonSub (some (JSVal.str "8")) ≠ canonSub (getField slotH "sanluong") ∧
      calculateChecksum
          (setField recH "hourlyData"
            (JSVal.obj (setField hdH "h830" (JSVal.obj (setField slotH "sanluong" (JSVal.str "8")))))) ≠
        calculateChecksum recH) :=
  ⟨⟨by decide, by decide,
      checksum_sensitive.1 recC2 "maHang" (by decide) (JSVal.str "X2") (by decide)⟩,
   ⟨rfl, by decide, rfl, by decide, by decide,
      checksum_sensitive.2 recH hdH "h830" slotH "sanluong" (JSVal.str "8") rfl (by decide)
        rfl (by decide) (by decide)⟩⟩

/-- Records differing only in the value of the monitored field `maHang`
(trailing versus leading blank), used to refute C2 as stated. -/
def cexR1 : Record := [("maHang", JSVal.str "X ")]

def cexR2 : Record := [("maHang", JSVal.str " X")]

/-- Claim C2, counterexample to the claim as stated: `cexR2` is `cexR1` with
the single monitored field `maHang` changed to a different value, yet the two
fingerprints are equal, because `calculateChecksum` trims string values. -/
theorem checksum_value_change_cex :
    setField cexR1 "maHang" (JSVal.str " X") = cexR2 ∧
    getField cexR1 "maHang" ≠ getField cexR2 "maHang" ∧
    calculateChecksum cexR1 = calculateChecksum cexR2 :=
  ⟨rfl,
   fun h => by
     injection h with h1
     injection h1 with h2
     exact absurd h2 (by decide),
   rfl⟩

theorem serializeHourly_eq_filterMap (hd : JSVal) :
    serializeHourlyDataForChecksum hd =
      joinSep "|" (timeSlots.filterMap fun slot =>
        (slotObjOf hd slot).map fun sl => slot ++ ":" ++ slotChecksum sl) := by
  cases hd with
  | obj l => rfl
  | null => simp [serializeHourlyDataForChecksum, slotObjOf, joinSep]
  | num q => simp [serializeHourlyDataForChecksum, slotObjOf, joinSep]
  | str s => simp [serializeHourlyDataForChecksum, slotObjOf, joinSep]
  | bool b => simp [serializeHourlyDataForChecksum, slotObjOf, joinSep]

/-- Claim C3.  `calculateChecksum` is a pure function of the monitored field
values: two records that agree (as JS values) on every monitored scalar field
and on every per-time-slot sub-record field — regardless of key insertion
order or how the objects were constructed — have equal fingerprints. -/
theorem checksum_deterministic (r1 r2 : Record)
    (hf : ∀ f ∈ getAllFieldsToMonitor, getField r1 f = getField r2 f)
    (hh : ∀ slot ∈ timeSlots,
      (slotObjOf (hourlyValOf r1) slot = none ∧ slotObjOf (hourlyValOf r2) slot = none) ∨
      (∃ sl1 sl2, slotObjOf (hourlyValOf r1) slot = some sl1 ∧
        slotObjOf (hourlyValOf r2) slot = some sl2 ∧
        ∀ g ∈ hourlySlotFields, getField sl1 g = getField sl2 g)) :
    calculateChecksum r1 = calculateChecksum r2 := by
  rw [calculateChecksum_def, calculateChecksum_def]
  have hF : (getAllFieldsToMonitor.map fun f => canonScalar (getField r1 f)) =
      (getAllFieldsToMonitor.map fun f => canonScalar (getField r2 f)) := by
    apply List.map_congr_left
    intro f hfm
    rw [hf f hfm]
  have hH : serializeHourlyDataForChecksum (hourlyValOf r1) =
      serializeHourlyDataForChecksum (hourlyValOf r2) := by
    rw [serializeHourly_eq_filterMap, serializeHourly_eq_filterMap]
    congr 1
    apply List.filterMap_congr
    intro slot hslot
    rcases hh slot hslot with ⟨h1, h2⟩ | ⟨sl1, sl2, h1, h2, hfields⟩
    · rw [h1, h2]
    · rw [h1, h2]
      have : slotChecksum sl1 = slotChecksum sl2 := by
        unfold slotChecksum
        congr 1
        apply List.map_congr_left
        intro g hg
        rw [hfields g hg]
      simp [this]
  rw [hF, hH]

/-- Two structurally different records with identical monitored values. -/
def detR1 : Record := [("nhaMay", JSVal.str "TS1"), ("junk", JSVal.bool true)]

def detR2 : Record := [("extra", JSVal.num 3), ("nhaMay", JSVal.str "TS1")]

theorem checksum_deterministic_witness :
    (∀ f ∈ getAllFieldsToMonitor, getField detR1 f = getField detR2 f) ∧
      calculateChecksum detR1 = calculateChecksum detR2 :=
  have hf : ∀ f ∈ getAllFieldsToMonitor, getField detR1 f = getField detR2 f := by
    intro f hfm
    fin_cases hfm <;> rfl
  ⟨hf, checksum_deterministic detR1 detR2 hf
    (fun slot _ => Or.inl ⟨rfl, rfl⟩)⟩

end Listener

/-! ### HTMSheetsService.getSheetData (src/unnamed/part_008 lines 102-149) -/

namespace HTMService

/-- Result of one upstream `spreadsheets.values.get` attempt.  A successful
response carries `response.data.values`, which may be absent. -/
inductive FetchResult (α : Type) : Type where
  | success (values : Option (List α)) : FetchResult α
  | quotaError : FetchResult α
  | otherError : FetchResult α

/-- Outcome of `getSheetData`: the returned grid, the number of upstream
attempts issued, and the backoff delays slept between attempts (ms). -/
structure FetchOutcome (α : Type) where
  values : List α
  attempts : Nat
  delays : List ℚ

/-- `const maxRetries = 3`. -/
def maxRetries : Nat := 3

/-- The retry loop of `getSheetData`: `fuel` counts the remaining loop
iterations (`attempt < maxRetries`), `jitter a` models `Math.random() * 500`
at attempt `a`.  A quota error before the last attempt sleeps
`2 ^ attempt * 1000 + jitter` and retries; exhausted retries and non-quota
errors throw, which the outer catch turns into an empty grid. -/
def getSheetDataGo {α : Type} (upstream : Nat → FetchResult α) (jitter : Nat → ℚ) :
    Nat → Nat → List ℚ → FetchOutcome α
  | 0, attempt, ds => ⟨[], attempt, ds⟩
  | fuel + 1, attempt, ds =>
      match upstream attempt with
      | .success g => ⟨g.getD [], attempt + 1, ds⟩
      | .quotaError =>
          if attempt < maxRetries - 1 then
            getSheetDataGo upstream jitter fuel (attempt + 1)
              (ds ++ [2 ^ attempt * 1000 + jitter attempt])
          else ⟨[], attempt + 1, ds⟩
      | .otherError => ⟨[], attempt + 1, ds⟩

/-- `getSheetData` (part_008 lines 102-149), with the upstream client and the
jitter source abstracted as oracles indexed by attempt number. -/
def getSheetData {α : Type} (upstream : Nat → FetchResult α) (jitter : Nat → ℚ) :
    FetchOutcome α :=
  getSheetDataGo upstream jitter maxRetries 0 []

/-- Claim C5.  On quota-exceeded errors the request is retried up to the
fixed maximum of 3 attempts with inter-attempt delay `2^attempt * 1000 ms`
plus random jitter; if the upstream fails on every attempt — by quota errors
or any non-quota error — `getSheetData` returns an empty grid without
throwing, after at most `maxRetries` attempts.  When every attempt is a
quota error, exactly 3 attempts are issued and the two backoff delays follow
the `2^attempt` schedule. -/
theorem getSheetData_retry {α : Type} (upstream : Nat → FetchResult α) (jitter : Nat → ℚ)
    (hfail : ∀ (a : Nat) (g : Option (List α)), upstream a ≠ .success g) :
    (getSheetData upstream jitter).values = [] ∧
    (getSheetData upstream jitter).attempts ≤ maxRetries ∧
    ((∀ a : Nat, upstream a = .quotaError) →
      getSheetData upstream jitter =
        ⟨[], 3, [2 ^ 0 * 1000 + jitter 0, 2 ^ 1 * 1000 + jitter 1]⟩) := by
  have step : ∀ (fuel attempt : Nat) (ds : List ℚ),
      (getSheetDataGo upstream jitter fuel attempt ds).values = [] ∧
      (getSheetDataGo upstream jitter fuel attempt ds).attempts ≤ attempt + fuel := by
    intro fuel
    induction fuel with
    | zero => intro attempt ds; exact ⟨rfl, Nat.le_refl _⟩
    | succ n ih =>
        intro attempt ds
        cases hu : upstream attempt with
        | success g => exact absurd hu (hfail attempt g)
        | quotaError =>
            by_cases ha : attempt < maxRetries - 1
            · simp only [getSheetDataGo, hu, ha, if_true]
              refine ⟨(ih _ _).1, le_trans (ih _ _).2 (by omega)⟩
            · simp only [getSheetDataGo, hu, ha, if_false]
              exact ⟨by trivial, by omega⟩
        | otherError =>
            simp only [getSheetDataGo, hu]
            exact ⟨by trivial, by omega⟩
  refine ⟨(step maxRetries 0 []).1, by simpa using (step maxRetries 0 []).2, ?_⟩
  intro hquota
  unfold getSheetData maxRetries
  rw [show (3 : Nat) = 2 + 1 from rfl, getSheetDataGo, hquota 0]
  norm_num [maxRetries]
  rw [show (2 : Nat) = 1 + 1 from rfl, getSheetDataGo, hquota 1]
  norm_num [maxRetries]
  rw [show (1 : Nat) = 0 + 1 from rfl, getSheetDataGo, hquota 2]
  norm_num [maxRetries]

theorem getSheetData_retry_witness :
    (∀ (a : Nat) (g : Option (List String)),
        (fun _ => FetchResult.quotaError : Nat → FetchResult String) a ≠ .success g) ∧
    (getSheetData (fun _ => FetchResult.quotaError : Nat → FetchResult String)
        (fun _ => 0)).values = [] ∧
    (getSheetData (fun _ => FetchResult.quotaError : Nat → FetchResult String)
        (fun _ => 0)).attempts ≤ maxRetries :=
  have hfail : ∀ (a : Nat) (g : Option (List String)),
      (fun _ => FetchResult.quotaError : Nat → FetchResult String) a ≠ .success g :=
    fun _ _ h => FetchResult.noConfusion h
  ⟨hfail,
    (getSheetData_retry (fun _ => FetchResult.quotaError) (fun _ => 0) hfail).1,
    (getSheetData_retry (fun _ => FetchResult.quotaError) (fun _ => 0) hfail).2.1⟩

end HTMService

/-! ### HTMSheetsListenerService.checkForChanges gate
(src/src/google-sheets/htm/htm-sheets-listener.service.ts lines 79-97) -/

namespace HTMListener

/-- `if (this.lastCheckTime && (now - this.lastCheckTime) < 90000)`. -/
def htmMinCheckIntervalMs : Int := 90000

/-- Listener state; the tracked-lines store is abstract (`σ`) since the gate
does not inspect it. -/
structure HTMState (σ : Type) where
  isListening : Bool
  lastCheckTime : Int
  tracked : σ

/-- `checkForChanges` of the HTM listener: the listening gate, the 90-second
minimum-interval gate, then `performCheck` (abstracted as an oracle over the
tracked store, since it performs upstream I/O). -/
def checkForChanges {σ : Type} (st : HTMState σ) (now : Int)
    (performCheck : σ → σ × List Listener.Event) : HTMState σ × List Listener.Event :=
  if st.isListening = false then (st, [])
  else if st.lastCheckTime != 0 && decide (now - st.lastCheckTime < htmMinCheckIntervalMs)
    then (st, [])
  else
    let p := performCheck st.tracked
    ({ isListening := st.isListening, lastCheckTime := now, tracked := p.1 }, p.2)

/-- Claim C6, amended.  Each listener skips a newly triggered cycle — leaving
its state untouched and emitting nothing — whenever less than its configured
minimum duration has elapsed since the previous executed cycle's start; that
minimum is 90 seconds for the per-line HTM listener and 240 seconds (4
minutes) for the whole-sheet listener, not a common 60-90-second value. -/
theorem min_interval_skip :
    (htmMinCheckIntervalMs = 90000 ∧ Listener.mainMinCheckIntervalMs = 240000) ∧
    (∀ (σ : Type) (st : HTMState σ) (now : Int)
        (performCheck : σ → σ × List Listener.Event),
      st.lastCheckTime ≠ 0 → now - st.lastCheckTime < htmMinCheckIntervalMs →
      checkForChanges st now performCheck = (st, [])) ∧
    (∀ (st : Listener.ListenerState) (now : Int) (inActiveBlock : Bool)
        (currentData : List Listener.Record),
      st.lastCheckTime ≠ 0 → now - st.lastCheckTime < Listener.mainMinCheckIntervalMs →
      Listener.checkForChanges st now inActiveBlock currentData = (st, [])) := by
  refine ⟨⟨rfl, rfl⟩, ?_, ?_⟩
  · intro σ st now performCheck h1 h2
    unfold checkForChanges
    by_cases hl : st.isListening = false
    · rw [if_pos hl]
    · rw [if_neg hl, if_pos]
      simp [h1, h2]
  · intro st now inActiveBlock currentData h1 h2
    unfold Listener.checkForChanges
    by_cases hl : st.isListening = false
    · rw [if_pos hl]
    · rw [if_neg hl]
      by_cases ha : inActiveBlock = false
      · rw [if_pos ha]
      · rw [if_neg ha, if_pos]
        simp [h1, h2]

theorem min_interval_skip_witness :
    ((1000 : Int) ≠ 0 ∧ (1050 : Int) - 1000 < htmMinCheckIntervalMs ∧
      checkForChanges (⟨true, 1000, ()⟩ : HTMState Unit) 1050 (fun s => (s, [])) =
        (⟨true, 1000, ()⟩, [])) ∧
    ((5000 : Int) ≠ 0 ∧ (65000 : Int) - 5000 < Listener.mainMinCheckIntervalMs ∧
      Listener.checkForChanges ⟨true, 5000, []⟩ 65000 true [Listener.recA] =
        (⟨true, 5000, []⟩, [])) :=
  ⟨⟨by decide, by decide,
      min_interval_skip.2.1 Unit ⟨true, 1000, ()⟩ 1050 (fun s => (s, [])) (by decide) (by decide)⟩,
   ⟨by decide, by decide,
      min_interval_skip.2.2 ⟨true, 5000, []⟩ 65000 true [Listener.recA] (by decide) (by decide)⟩⟩

/-- Claim C6, counterexample to the claim as stated: the whole-sheet
listener's configured minimum inter-cycle duration is 240000 ms, not a value
in the 60-90-second range, and a cycle triggered 120 seconds after the
previous cycle's start — i.e. after more than the claimed 60-90-second
minimum has elapsed — is still skipped by the minimum-interval gate. -/
theorem min_interval_cex :
    Listener.mainMinCheckIntervalMs = 240000 ∧
    ¬ (Listener.mainMinCheckIntervalMs ≤ 90000) ∧
    ((121000 : Int) - 1000 = 120000 ∧ ¬ ((120000 : Int) < 90000)) ∧
    Listener.checkForChanges ⟨true, 1000, []⟩ 121000 true [Listener.recA] =
      (⟨true, 1000, []⟩, []) :=
  ⟨rfl, by decide, ⟨rfl, by decide⟩, rfl⟩

end HTMListener

/-! ### JS numeric parsing primitives -/

def isDigitChar (c : Char) : Bool := '0' ≤ c && c ≤ '9'

/-- Characters kept by the cleanup regex `replace(/[^0-9.-]/g, '')`. -/
def keepNumChar (c : Char) : Bool := isDigitChar c || c = '.' || c = '-'

def digitsToNat : List Char → Nat → Nat
  | [], acc => acc
  | c :: cs, acc => digitsToNat cs (acc * 10 + (c.toNat - 48))

/-- Unsigned part of JS `parseFloat`: longest prefix `digits [. digits]`,
`none` when no digit is read (JS `NaN`). -/
def parseFloatPos (l : List Char) : Option ℚ :=
  let d1 := l.takeWhile isDigitChar
  let r1 := l.drop d1.length
  match r1 with
  | '.' :: r2 =>
    let d2 := r2.takeWhile isDigitChar
    if d1.isEmpty && d2.isEmpty then none
    else some (((digitsToNat d1 0 : ℚ) * 10 ^ d2.length + (digitsToNat d2 0 : ℚ)) / 10 ^ d2.length)
  | _ => if d1.isEmpty then none else some (digitsToNat d1 0 : ℚ)

/-- JS `parseFloat` on a character list: skip leading whitespace, optional
sign, then the longest valid decimal prefix (exponents do not arise in the
cleaned sheet strings). -/
def parseFloatChars (l : List Char) : Option ℚ :=
  match l.dropWhile jsWsChar with
  | '-' :: rest => (parseFloatPos rest).map (fun q => -q)
  | '+' :: rest => parseFloatPos rest
  | l2 => parseFloatPos l2

def parseFloatStr (s : String) : Option ℚ := parseFloatChars s.data

/-! ### GoogleSheetsService numeric cell parsers (src/unnamed/part_007) -/

namespace GSheets

/-- `parseNumber` (part_007 lines 721-730): numbers pass through; strings are
stripped to `[0-9.-]` and run through `parseFloat`, `NaN` mapping to 0. -/
def parseNumber (v : JSVal) : ℚ :=
  match v with
  | .num q => q
  | .str s =>
      match parseFloatStr ⟨s.data.filter keepNumChar⟩ with
      | some q => q
      | none => 0
  | _ => 0

/-- `value.replace(',', '.')` — only the first comma is replaced. -/
def replaceFirstComma : List Char → List Char
  | [] => []
  | c :: rest => if c = ',' then '.' :: rest else c :: replaceFirstComma rest

/-- `parsePercentage` (part_007 lines 693-719): numbers pass through; strings
get their first comma turned into a dot, are stripped to `[0-9.-]` and run
through `parseFloat`, `NaN` mapping to 0. -/
def parsePercentage (v : JSVal) : ℚ :=
  match v with
  | .num q => q
  | .str s =>
      match parseFloatChars ((replaceFirstComma s.data).filter keepNumChar) with
      | some q => q
      | none => 0
  | _ => 0

/-- `parseRFT` (part_007 lines 685-691): spreadsheet error tokens map to 0,
everything else defers to `parsePercentage`. -/
def parseRFT (v : JSVal) : ℚ :=
  match v with
  | .str s =>
      if hasSub ("#DIV").data s.data || hasSub ("#N/A").data s.data then 0
      else parsePercentage (.str s)
  | _ => parsePercentage v

/-- Claim C7, amended.  Native numbers pass through all three parsers
unchanged and the error tokens `#DIV/0!` and `#N/A` parse to zero in all
three; thousands separators and percent suffixes are handled by
`parseNumber` (which strips commas entirely), while comma-as-decimal and
percent suffixes are handled by `parsePercentage` (which converts only the
first comma to a decimal point); `parseNumber` does not parse decimal commas
(it reads `"1,5"` as 15) and `parsePercentage` does not parse thousands
separators. -/
theorem parsers_amended :
    (∀ q : ℚ, parseNumber (.num q) = q ∧ parsePercentage (.num q) = q ∧
      parseRFT (.num q) = q) ∧
    (parseNumber (.str "1,234") = 1234 ∧
      parseNumber (.str "12,345.67") = 1234567 / 100 ∧
      parseNumber (.str "45%") = 45 ∧
      parseNumber (.str "#DIV/0!") = 0 ∧ parseNumber (.str "#N/A") = 0) ∧
    (parsePercentage (.str "100,5%") = 201 / 2 ∧
      parsePercentage (.str "0.86") = 86 / 100 ∧
      parsePercentage (.str "86%") = 86 ∧
      parsePercentage (.str "#DIV/0!") = 0 ∧ parsePercentage (.str "#N/A") = 0) ∧
    (parseRFT (.str "#DIV/0!") = 0 ∧ parseRFT (.str "#N/A") = 0 ∧
      parseRFT (.str "92%") = 92) ∧
    parseNumber (.str "1,5") = 15 := by
  refine ⟨fun q => ⟨rfl, rfl, rfl⟩, ⟨?_, ?_, ?_, ?_, rfl⟩, ⟨?_, ?_, ?_, ?_, rfl⟩,
    ⟨rfl, rfl, ?_⟩, ?_⟩
  · have h : parseNumber (.str "1,234") = ((1234 : ℕ) : ℚ) := rfl
    rw [h]; norm_num
  · have h : parseNumber (.str "12,345.67") =
        (((12345 : ℕ) : ℚ) * 10 ^ 2 + ((67 : ℕ) : ℚ)) / 10 ^ 2 := rfl
    rw [h]; norm_num
  · have h : parseNumber (.str "45%") = ((45 : ℕ) : ℚ) := rfl
    rw [h]; norm_num
  · have h : parseNumber (.str "#DIV/0!") = ((0 : ℕ) : ℚ) := rfl
    rw [h]; norm_num
  · have h : parsePercentage (.str "100,5%") =
        (((100 : ℕ) : ℚ) * 10 ^ 1 + ((5 : ℕ) : ℚ)) / 10 ^ 1 := rfl
    rw [h]; norm_num
  · have h : parsePercentage (.str "0.86") =
        (((0 : ℕ) : ℚ) * 10 ^ 2 + ((86 : ℕ) : ℚ)) / 10 ^ 2 := rfl
    rw [h]; norm_num
  · have h : parsePercentage (.str "86%") = ((86 : ℕ) : ℚ) := rfl
    rw [h]; norm_num
  · have h : parsePercentage (.str "#DIV/0!") = ((0 : ℕ) : ℚ) := rfl
    rw [h]; norm_num
  · have h : parseRFT (.str "92%") = ((92 : ℕ) : ℚ) := rfl
    rw [h]; norm_num
  · have h : parseNumber (.str "1,5") = ((15 : ℕ) : ℚ) := rfl
    rw [h]; norm_num

/-- Claim C7, counterexample to the claim as stated: on a string with a comma
as decimal separator, `parseNumber` strips the comma as if it were a
thousands separator, reading `"1,5"` (which denotes 1.5) as 15; dually
`parsePercentage` reads the thousands-separated `"1,234"` as 1.234. -/
theorem parseNumber_decimal_comma_cex :
    (parseNumber (.str "1,5") = 15 ∧ (15 : ℚ) ≠ 3 / 2) ∧
    (parsePercentage (.str "1,234") = 617 / 500 ∧ (617 / 500 : ℚ) ≠ 1234) := by
  constructor
  · constructor
    · have h : parseNumber (.str "1,5") = ((15 : ℕ) : ℚ) := rfl
      rw [h]; norm_num
    · norm_num
  · constructor
    · have h : parsePercentage (.str "1,234") =
          (((1 : ℕ) : ℚ) * 10 ^ 3 + ((234 : ℕ) : ℚ)) / 10 ^ 3 := rfl
      rw [h]; norm_num
    · norm_num

end GSheets

/-! ### CDSheetsService.getProductionData grouping
(src/src/google-sheets/cd/cd-sheets.service.ts lines 277-383) -/

namespace CD

/-- One raw sheet row. -/
abbrev Row := List JSVal

/-- `(row[i] || '').toString().trim()`. -/
def cellText (row : Row) (i : Nat) : String :=
  match row[i]? with
  | some v => if jsTruthy v then jsTrim (jsToString v) else ""
  | none => ""

/-- `lineRowCount` (lines 278-296) with the `|| 5` default. -/
def lineRowCount (code : String) : Nat :=
  if code = "KVHB07CD16" then 11
  else if code = "KVHB07CD17" then 11
  else if code = "KVHB07CD18" then 5
  else if code = "KVHB07CD19" then 5
  else if code = "KVHB07CD20" then 5
  else if code = "KVHB07CD21" then 5
  else if code = "KVHB07CD22" then 5
  else if code = "KVHB07CD23" then 5
  else if code = "KVHB07CD24" then 11
  else if code = "KVHB07CD25" then 11
  else if code = "KVHB07CD26" then 5
  else if code = "KVHB07CD27" then 5
  else 5

theorem lineRowCount_pos (code : String) : 1 ≤ lineRowCount code := by
  unfold lineRowCount
  split_ifs <;> decide

/-- Parent-row detection (lines 317-322): non-empty code, `LINE`-prefixed
line field, code among the configured target line codes. -/
def isParentRow (targets : List String) (row : Row) : Bool :=
  let code := cellText row 0
  let lineField := cellText row 2
  code ≠ "" && lineField ≠ "" && hasPre ("LINE").data lineField.data && targets.contains code

/-- The stop test inside sub-row collection (line 346): a row identified as a
parent by a non-empty `KVHB07CD`-prefixed code. -/
def isNextParentRow (row : Row) : Bool :=
  let subCode := cellText row 0
  subCode ≠ "" && hasPre ("KVHB07CD").data subCode.data

/-- The inner sub-row collection loop (lines 340-357): collect up to `cnt`
following rows, stopping early at the end of the sheet or at the next
parent row (the mismatch is logged and the rows collected so far kept). -/
def collectSubRows (data : List Row) (start : Nat) : Nat → List Row
  | 0 => []
  | cnt + 1 =>
      match data[start]? with
      | none => []
      | some row =>
          if isNextParentRow row then []
          else row :: collectSubRows data (start + 1) cnt

theorem collectSubRows_none (data : List Row) (start cnt : Nat)
    (h : data[start]? = none) : collectSubRows data start (cnt + 1) = [] := by
  simp [collectSubRows, h]

theorem collectSubRows_stoprow (data : List Row) (start cnt : Nat) (row : Row)
    (h : data[start]? = some row) (hs : isNextParentRow row = true) :
    collectSubRows data start (cnt + 1) = [] := by
  simp [collectSubRows, h, hs]

theorem collectSubRows_cons (data : List Row) (start cnt : Nat) (row : Row)
    (h : data[start]? = some row) (hs : isNextParentRow row = false) :
    collectSubRows data start (cnt + 1) = row :: collectSubRows data (start + 1) cnt := by
  simp [collectSubRows, h, hs]

/-- `canBoQuanLy` extraction from the row after the parent (lines 324-333). -/
def canBoQuanLyOf (data : List Row) (i : Nat) : String :=
  match data[i + 1]? with
  | some nextRow =>
      let nextCode := cellText nextRow 0
      let nextLine := cellText nextRow 2
      if nextCode = "" && nextLine ≠ "" && !(hasPre ("LINE").data nextLine.data) then nextLine
      else ""
  | none => ""

/-- One entry of the `cdGroups` map. -/
structure CDGroup where
  parentRow : Row
  teamRows : List Row
  canBoQuanLy : String

/-- `cdGroups.set` with JS `Map` semantics. -/
def setGroup : List (String × CDGroup) → String → CDGroup → List (String × CDGroup)
  | [], k, g => [(k, g)]
  | (k0, g0) :: rest, k, g =>
      if k0 = k then (k0, g) :: rest else (k0, g0) :: setGroup rest k g

/-- The main scan loop of `getProductionData` (lines 308-370): detect parent
rows, collect their fixed number of sub-rows, and jump `totalRows` ahead. -/
def cdLoop (data : List Row) (targets : List String)
    (groups : List (String × CDGroup)) (i : Nat) : List (String × CDGroup) :=
  if h : i < data.length then
    let row := data.get ⟨i, h⟩
    if isParentRow targets row then
      let code := cellText row 0
      let totalRows := lineRowCount code
      cdLoop data targets
        (setGroup groups code
          ⟨row, collectSubRows data (i + 1) (totalRows - 1), canBoQuanLyOf data i⟩)
        (i + totalRows)
    else cdLoop data targets groups (i + 1)
  else groups
termination_by data.length - i
decreasing_by
  · have hpos := lineRowCount_pos (cellText (data.get ⟨i, h⟩) 0)
    omega
  · omega

end CD

namespace CD

theorem collectSubRows_full :
    ∀ (cnt : Nat) (data : List Row) (start : Nat), start + cnt ≤ data.length →
      (∀ row ∈ (data.drop start).take cnt, isNextParentRow row = false) →
      collectSubRows data start cnt = (data.drop start).take cnt := by
  intro cnt
  induction cnt with
  | zero => intro data start _ _; simp [collectSubRows]
  | succ n ih =>
      intro data start hlen hclean
      have hlt : start < data.length := by omega
      have hdrop : data.drop start = data[start] :: data.drop (start + 1) :=
        List.drop_eq_getElem_cons hlt
      have hget : data[start]? = some data[start] := List.getElem?_eq_getElem hlt
      have hmem : data[start] ∈ (data.drop start).take (n + 1) := by
        rw [hdrop, List.take_succ_cons]
        exact List.mem_cons_self _ _
      have hs : isNextParentRow data[start] = false := hclean _ hmem
      rw [collectSubRows_cons data start n data[start] hget hs, hdrop, List.take_succ_cons]
      congr 1
      apply ih data (start + 1) (by omega)
      intro row hrow
      apply hclean
      rw [hdrop, List.take_succ_cons]
      exact List.mem_cons_of_mem _ hrow

theorem collectSubRows_early_stop :
    ∀ (k : Nat) (data : List Row) (start cnt : Nat) (hk : start + k < data.length),
      k < cnt →
      (∀ row ∈ (data.drop start).take k, isNextParentRow row = false) →
      isNextParentRow (data.get ⟨start + k, hk⟩) = true →
      collectSubRows data start cnt = (data.drop start).take k := by
  intro k
  induction k with
  | zero =>
      intro data start cnt hk hcnt _ hstop
      obtain ⟨c, rfl⟩ : ∃ c, cnt = c + 1 := ⟨cnt - 1, by omega⟩
      have hlt : start < data.length := by omega
      have hget : data[start]? = some data[start] := List.getElem?_eq_getElem hlt
      have hstop2 : isNextParentRow data[start] = true := by
        have : data.get ⟨start + 0, hk⟩ = data[start] := by
          simp [List.get_eq_getElem]
        rwa [this] at hstop
      rw [collectSubRows_stoprow data start c data[start] hget hstop2]
      simp
  | succ m ih =>
      intro data start cnt hk hcnt hclean hstop
      obtain ⟨c, rfl⟩ : ∃ c, cnt = c + 1 := ⟨cnt - 1, by omega⟩
      have hlt : start < data.length := by omega
      have hdrop : data.drop start = data[start] :: data.drop (start + 1) :=
        List.drop_eq_getElem_cons hlt
      have hget : data[start]? = some data[start] := List.getElem?_eq_getElem hlt
      have hmem : data[start] ∈ (data.drop start).take (m + 1) := by
        rw [hdrop, List.take_succ_cons]
        exact List.mem_cons_self _ _
      have hs : isNextParentRow data[start] = false := hclean _ hmem
      have hk2 : start + 1 + m < data.length := by omega
      have hstop2 : isNextParentRow (data.get ⟨start + 1 + m, hk2⟩) = true := by
        have : data.get ⟨start + 1 + m, hk2⟩ = data.get ⟨start + (m + 1), hk⟩ := by
          have hnum : start + 1 + m = start + (m + 1) := by omega
          simp only [hnum]
        rw [this]
        exact hstop
      rw [collectSubRows_cons data start c data[start] hget hs, hdrop, List.take_succ_cons]
      congr 1
      apply ih data (start + 1) c hk2 (by omega) ?_ hstop2
      intro row hrow
      apply hclean
      rw [hdrop, List.take_succ_cons]
      exact List.mem_cons_of_mem _ hrow

/-- Claim C8.  At a detected parent row the scan loop records the group for
that code with exactly the sub-rows gathered by `collectSubRows` and jumps
`totalRows` ahead; when the configured number of following rows exist and
none is a new parent marker, exactly `lineRowCount code - 1` sub-rows are
collected (blank rows included); when a row with a non-empty
`KVHB07CD`-prefixed code appears after `k` clean rows, collection stops
early with exactly the `k` rows collected so far (the mismatch is only
logged; processing continues). -/
theorem subrow_collection :
    (∀ (data : List Row) (targets : List String) (groups : List (String × CDGroup))
        (i : Nat) (h : i < data.length), isParentRow targets (data.get ⟨i, h⟩) = true →
      cdLoop data targets groups i =
        cdLoop data targets
          (setGroup groups (cellText (data.get ⟨i, h⟩) 0)
            ⟨data.get ⟨i, h⟩,
              collectSubRows data (i + 1) (lineRowCount (cellText (data.get ⟨i, h⟩) 0) - 1),
              canBoQuanLyOf data i⟩)
          (i + lineRowCount (cellText (data.get ⟨i, h⟩) 0))) ∧
    (∀ (data : List Row) (start cnt : Nat), start + cnt ≤ data.length →
      (∀ row ∈ (data.drop start).take cnt, isNextParentRow row = false) →
      collectSubRows data start cnt = (data.drop start).take cnt ∧
        (collectSubRows data start cnt).length = cnt) ∧
    (∀ (data : List Row) (start cnt k : Nat) (hk : start + k < data.length), k < cnt →
      (∀ row ∈ (data.drop start).take k, isNextParentRow row = false) →
      isNextParentRow (data.get ⟨start + k, hk⟩) = true →
      collectSubRows data start cnt = (data.drop start).take k ∧
        (collectSubRows data start cnt).length = k) := by
  refine ⟨?_, ?_, ?_⟩
  · intro data targets groups i h hp
    conv_lhs => rw [cdLoop]
    rw [dif_pos h, if_pos hp]
  · intro data start cnt hlen hclean
    have heq := collectSubRows_full cnt data start hlen hclean
    refine ⟨heq, ?_⟩
    rw [heq]
    simp only [List.length_take, List.length_drop]
    omega
  · intro data start cnt k hk hcnt hclean hstop
    have heq := collectSubRows_early_stop k data start cnt hk hcnt hclean hstop
    refine ⟨heq, ?_⟩
    rw [heq]
    simp only [List.length_take, List.length_drop]
    omega

/-- Concrete grid for the C8 witness: a parent row for `KVHB07CD18`
(configured for 5 rows, i.e. 4 sub-rows), 4 sub-rows (one blank), and a
second grid where the next parent appears after only 2 sub-rows. -/
def parentRow18 : Row := [JSVal.str "KVHB07CD18", JSVal.str "TS1", JSVal.str "LINE CD18"]

def parentRow19 : Row := [JSVal.str "KVHB07CD19", JSVal.str "TS1", JSVal.str "LINE CD19"]

def subRow1 : Row := [JSVal.str "", JSVal.str "", JSVal.str "Nguyen Van A", JSVal.str "TỔ 1"]

def subRow2 : Row := [JSVal.str "", JSVal.str "", JSVal.str "", JSVal.str "TỔ 2"]

def blankRow : Row := []

def gridFull : List Row := [parentRow18, subRow1, subRow2, blankRow, subRow2]

def gridEarly : List Row := [parentRow18, subRow1, subRow2, parentRow19, subRow1]

theorem subrow_collection_witness :
    ((1 : Nat) + 4 ≤ gridFull.length ∧
      (∀ row ∈ (gridFull.drop 1).take 4, isNextParentRow row = false) ∧
      collectSubRows gridFull 1 4 = (gridFull.drop 1).take 4 ∧
        (collectSubRows gridFull 1 4).length = 4) ∧
    ((1 : Nat) + 2 < gridEarly.length ∧ (2 : Nat) < 4 ∧
      (∀ row ∈ (gridEarly.drop 1).take 2, isNextParentRow row = false) ∧
      isNextParentRow (gridEarly.get ⟨1 + 2, by decide⟩) = true ∧
      collectSubRows gridEarly 1 4 = (gridEarly.drop 1).take 2 ∧
        (collectSubRows gridEarly 1 4).length = 2) :=
  ⟨⟨by decide, by decide,
      subrow_collection.2.1 gridFull 1 4 (by decide) (by decide)⟩,
   ⟨by decide, by decide, by decide, by decide,
      subrow_collection.2.2 gridEarly 1 4 2 (by decide) (by decide) (by decide) (by decide)⟩⟩

end CD

/-! ### QSLSheetsService.parseGroupedData
(src/src/google-sheets/qsl/qsl-sheets.service.ts lines 123-213) -/

namespace QSL

abbrev Row := List JSVal

/-- `(row[i] || '').toString().trim()`. -/
def cellText (row : Row) (i : Nat) : String :=
  match row[i]? with
  | some v => if jsTruthy v then jsTrim (jsToString v) else ""
  | none => ""

/-- `row[i]` as a JS value (`undefined` modelled as `null`, which every QSL
parser treats identically: not a number, not a string, hence 0). -/
def cellVal (row : Row) (i : Nat) : JSVal := (row[i]?).getD JSVal.null

/-- QSL `parseNumber` (lines 264-271): `parseFloat(value.replace(/,/g, ''))`
with `NaN ↦ 0`. -/
def parseNumber (v : JSVal) : ℚ :=
  match v with
  | .num q => q
  | .str s =>
      match parseFloatChars (s.data.filter (fun c => c != ',')) with
      | some q => q
      | none => 0
  | _ => 0

/-- `Math.round` (half away from zero is irrelevant here; JS rounds half
towards +∞, i.e. `⌊q + 1/2⌋`). -/
def jsRound (q : ℚ) : ℚ := ((q + 1 / 2).floor : ℤ)

def removeFirstPercent : List Char → List Char
  | [] => []
  | c :: rest => if c = '%' then rest else c :: removeFirstPercent rest

/-- QSL `parsePercentage` (lines 246-259): numbers are fractions
(`0.86 ↦ 86`); strings drop one `%`, are trimmed and parsed, values `> 1`
rounding directly and values `≤ 1` scaling by 100 first. -/
def parsePercentage (v : JSVal) : ℚ :=
  match v with
  | .num q => jsRound (q * 100)
  | .str s =>
      match parseFloatChars (jsTrim ⟨removeFirstPercent s.data⟩).data with
      | some q => if q > 1 then jsRound q else jsRound (q * 100)
      | none => 0
  | _ => 0

/-- One parsed row (`parseRowData`, lines 218-241). -/
structure RowData where
  nhom : String
  ldLayout : ℚ
  thucTe : ℚ
  keHoach : ℚ
  h8h30 : ℚ
  h9h30 : ℚ
  h10h30 : ℚ
  h11h30 : ℚ
  h13h30 : ℚ
  h14h30 : ℚ
  h15h30 : ℚ
  h16h30 : ℚ
  h18h : ℚ
  h19h : ℚ
  h20h : ℚ
  luyKeThucHien : ℚ
  luyKeKeHoach : ℚ
  percentHT : ℚ

def parseRowData (row : Row) (nhom : String) : RowData :=
  ⟨nhom, parseNumber (cellVal row 3), parseNumber (cellVal row 4), parseNumber (cellVal row 5),
   parseNumber (cellVal row 6), parseNumber (cellVal row 7), parseNumber (cellVal row 8),
   parseNumber (cellVal row 9), parseNumber (cellVal row 10), parseNumber (cellVal row 11),
   parseNumber (cellVal row 12), parseNumber (cellVal row 13), parseNumber (cellVal row 14),
   parseNumber (cellVal row 15), parseNumber (cellVal row 16), parseNumber (cellVal row 17),
   parseNumber (cellVal row 18), parsePercentage (cellVal row 19)⟩

/-- Case-folding for the characters appearing in the two row-marker regexes
(`/i` flag). -/
def lowerVN (c : Char) : Char :=
  if c = 'T' then 't' else if c = 'Ổ' then 'ổ' else if c = 'Ú' then 'ú'
  else if c = 'I' then 'i' else if c = 'N' then 'n' else if c = 'H' then 'h'
  else if c = 'Ỏ' then 'ỏ' else c

/-- `tenTo.match(/^TỔ\s+\d+$/i)` (line 139). -/
def isTeamMarker (s : String) : Bool :=
  match s.data.map lowerVN with
  | 't' :: 'ổ' :: rest =>
      let ws := rest.takeWhile jsWsChar
      let ds := rest.drop ws.length
      !ws.isEmpty && !ds.isEmpty && ds.all isDigitChar
  | _ => false

/-- `/^TÚI\s+NHỎ/i` prefix test, applied to column A or column B (line 167). -/
def isTuiNhoPre (s : String) : Bool :=
  match s.data.map lowerVN with
  | 't' :: 'ú' :: 'i' :: rest =>
      let ws := rest.takeWhile jsWsChar
      let ds := rest.drop ws.length
      !ws.isEmpty && hasPre ['n', 'h', 'ỏ'] ds
  | _ => false

/-- `FIXED_GROUPS` (lines 39-49): the nine fixed per-team rows. -/
def FIXED_GROUPS : List String :=
  ["ĐÓNG GÓI", "QC KIỂM TÚI", "SƠN TP", "RÁP", "THÂN", "LÓT", "QC KIỂM QUAI", "QUAI",
   "SƠN CT/BTP"]

structure QTeam where
  tenTo : String
  tglv : ℚ
  fixedGroups : List RowData
  tuiNhoGroups : List RowData

/-- The loop state of `parseGroupedData`: accumulated teams, current team,
fixed-row counter and the TÚI NHỎ section flag. -/
structure QState where
  teams : List QTeam
  currentTeam : Option QTeam
  fixedRowCount : Nat
  inTuiNhoSection : Bool

/-- One iteration of the row loop (lines 129-199). -/
def qslStep (st : QState) (row : Row) : QState :=
  let tenTo := cellText row 0
  let tglvRaw := cellText row 1
  let nhom := cellText row 2
  if isTeamMarker tenTo then
    let acc := st.teams ++ st.currentTeam.toList
    let team0 : QTeam := ⟨tenTo, parseNumber (cellVal row 1), [], []⟩
    if nhom ≠ "" then
      ⟨acc, some { team0 with fixedGroups := [parseRowData row nhom] }, 1, false⟩
    else ⟨acc, some team0, 0, false⟩
  else
    let inTui := if isTuiNhoPre tenTo || isTuiNhoPre tglvRaw then true else st.inTuiNhoSection
    if nhom = "" then ⟨st.teams, st.currentTeam, st.fixedRowCount, inTui⟩
    else
      match st.currentTeam with
      | none => ⟨st.teams, none, st.fixedRowCount, inTui⟩
      | some team =>
          if !inTui && st.fixedRowCount < FIXED_GROUPS.length then
            ⟨st.teams,
              some { team with fixedGroups := team.fixedGroups ++ [parseRowData row nhom] },
              st.fixedRowCount + 1, inTui⟩
          else if inTui then
            if parseNumber (cellVal row 5) > 0 then
              ⟨st.teams,
                some { team with tuiNhoGroups := team.tuiNhoGroups ++ [parseRowData row nhom] },
                st.fixedRowCount, inTui⟩
            else ⟨st.teams, st.currentTeam, st.fixedRowCount, inTui⟩
          else ⟨st.teams, st.currentTeam, st.fixedRowCount, inTui⟩

/-- Result shape of `parseGroupedData` (`lastUpdate` is wall clock and
omitted). -/
structure GroupedData where
  line : Nat
  sheetName : String
  totalTeams : Nat
  teams : List QTeam

/-- `parseGroupedData` (lines 123-213). -/
def parseGroupedData (dataRows : List Row) (line : Nat) : GroupedData :=
  let st := dataRows.foldl qslStep ⟨[], none, 0, false⟩
  let teams := st.teams ++ st.currentTeam.toList
  ⟨line, "LINE" ++ toString line, teams.length, teams⟩

end QSL

namespace QSL

/-- Scenario grid: one team, a TÚI NHỎ marker (column A), then five
candidate rows of which exactly two have a positive planned quantity. -/
def qRow0 : Row :=
  [JSVal.str "TỔ 1", JSVal.num 8, JSVal.str "ĐÓNG GÓI", JSVal.num 5, JSVal.num 5, JSVal.num 100]

def qRowMarker : Row := [JSVal.str "TÚI NHỎ (NẾU CÓ)", JSVal.str "", JSVal.str ""]

def qCand1 : Row :=
  [JSVal.str "", JSVal.str "", JSVal.str "QC KIỂM TÚI", JSVal.num 1, JSVal.num 1, JSVal.num 0]

def qCand2 : Row :=
  [JSVal.str "", JSVal.str "", JSVal.str "RÁP", JSVal.num 1, JSVal.num 1, JSVal.num 3]

def qCand3 : Row :=
  [JSVal.str "", JSVal.str "", JSVal.str "THÂN", JSVal.num 1, JSVal.num 1, JSVal.num 0]

def qCand4 : Row :=
  [JSVal.str "", JSVal.str "", JSVal.str "QUAI", JSVal.num 1, JSVal.num 1, JSVal.num 2]

def qCand5 : Row :=
  [JSVal.str "", JSVal.str "", JSVal.str "LÓT", JSVal.num 1, JSVal.num 1, JSVal.num 0]

def scenarioGrid : List Row :=
  [qRow0, qRowMarker, qCand1, qCand2, qCand3, qCand4, qCand5]

/-- Claim C9.  Inside a TÚI NHỎ section, a candidate row (non-team-marker,
non-empty group name) is appended to the current team's trailing group if
and only if its planned-quantity cell (column F) parses strictly positive; a
team-marker row closes the trailing block (the current team is flushed, a
fresh team with an empty trailing group starts, and the section flag
resets); the marker is recognised case-insensitively in either column A or
column B; and on the scenario grid with five candidates — two positive,
three zero — exactly the two positive rows are included. -/
theorem tuiNho_filter :
    (∀ (st : QState) (team : QTeam) (row : Row),
      st.currentTeam = some team → st.inTuiNhoSection = true →
      isTeamMarker (cellText row 0) = false → cellText row 2 ≠ "" →
      ((qslStep st row).currentTeam.map QTeam.tuiNhoGroups) =
        some (team.tuiNhoGroups ++
          (if parseNumber (cellVal row 5) > 0 then [parseRowData row (cellText row 2)]
           else []))) ∧
    (∀ (st : QState) (row : Row), isTeamMarker (cellText row 0) = true →
      (qslStep st row).teams = st.teams ++ st.currentTeam.toList ∧
      ((qslStep st row).currentTeam.map QTeam.tuiNhoGroups) = some [] ∧
      (qslStep st row).inTuiNhoSection = false) ∧
    (∀ (st : QState) (row : Row),
      isTeamMarker (cellText row 0) = false →
      (isTuiNhoPre (cellText row 0) || isTuiNhoPre (cellText row 1)) = true →
      (qslStep st row).inTuiNhoSection = true) ∧
    ((parseGroupedData scenarioGrid 1).teams.map
        (fun t => t.tuiNhoGroups.map (fun g => g.nhom))) = [["RÁP", "QUAI"]] := by
  refine ⟨?_, ?_, ?_, by decide⟩
  · intro st team row h1 h2 h3 h4
    by_cases hk : parseNumber (cellVal row 5) > 0
    · simp [qslStep, h1, h2, h3, h4, hk]
    · simp [qslStep, h1, h2, h3, h4, hk]
  · intro st row hm
    by_cases hn : cellText row 2 = ""
    · simp [qslStep, hm, hn]
    · simp [qslStep, hm, hn]
  · intro st row hm ht
    by_cases hn : cellText row 2 = ""
    · simp [qslStep, hm, ht, hn]
    · cases hcur : st.currentTeam with
      | none => simp [qslStep, hm, ht, hn, hcur]
      | some team =>
          by_cases hk : parseNumber (cellVal row 5) > 0
          · simp [qslStep, hm, ht, hn, hcur, hk]
          · simp [qslStep, hm, ht, hn, hcur, hk]

def teamW : QTeam := ⟨"TỔ 2", 8, [], []⟩

def stW : QState := ⟨[], some teamW, 3, true⟩

theorem tuiNho_filter_witness :
    (stW.currentTeam = some teamW ∧ stW.inTuiNhoSection = true ∧
      isTeamMarker (cellText qCand2 0) = false ∧ cellText qCand2 2 ≠ "" ∧
      ((qslStep stW qCand2).currentTeam.map QTeam.tuiNhoGroups) =
        some (teamW.tuiNhoGroups ++
          (if parseNumber (cellVal qCand2 5) > 0 then [parseRowData qCand2 (cellText qCand2 2)]
           else []))) ∧
    (isTeamMarker (cellText qRow0 0) = true ∧
      (qslStep stW qRow0).teams = stW.teams ++ stW.currentTeam.toList ∧
      ((qslStep stW qRow0).currentTeam.map QTeam.tuiNhoGroups) = some [] ∧
      (qslStep stW qRow0).inTuiNhoSection = false) :=
  ⟨⟨rfl, rfl, by decide, by decide,
     tuiNho_filter.1 stW teamW qCand2 rfl rfl (by decide) (by decide)⟩,
   ⟨by decide, (tuiNho_filter.2.1 stW qRow0 (by decide)).1,
     (tuiNho_filter.2.1 stW qRow0 (by decide)).2.1,
     (tuiNho_filter.2.1 stW qRow0 (by decide)).2.2⟩⟩

end QSL
